import Mathlib

/-!
Shallow embedding of the HL7 Viewer statistics module (the filtering /
addressing / aggregation engine) and proofs about its behaviour.

JavaScript strings are embedded as `List Char` so that the string
operations the source uses (`split`, `trim`, `toUpperCase`, `substring`,
regular-expression helpers) can be given directly as structurally
recursive Lean functions that are easy to evaluate and reason about.
ASCII-level fidelity is kept throughout; host-specific corner cases
(non-ASCII case mapping, exotic Unicode whitespace beyond the common
code points, float imprecision of `parseInt` beyond 2^53) are outside
the modelled fragment.
-/

/-- Embedded JavaScript string: a list of characters. -/
abbrev Str := List Char

/-- Convert a Lean string literal to the embedded representation. -/
def S (s : String) : Str := s.data

/-- JavaScript whitespace class (`\s`, `String.prototype.trim`):
tab, LF, VT, FF, CR, space, NBSP, BOM, and the Unicode line separators. -/
def isJsWs (c : Char) : Bool :=
  c = ' ' ∨ c = '\t' ∨ c = '\n' ∨ c = '\r' ∨ c = '\x0b' ∨ c = '\x0c' ∨
  c = ' ' ∨ c = '﻿' ∨ c = ' ' ∨ c = ' '

/-- Characters the regex `.` does not match (line terminators). -/
def isLineTerm (c : Char) : Bool :=
  c = '\n' ∨ c = '\r' ∨ c = ' ' ∨ c = ' '

/-- `String.prototype.trim`. -/
def jsTrim (l : Str) : Str :=
  ((l.dropWhile isJsWs).reverse.dropWhile isJsWs).reverse

/-- `String.prototype.toUpperCase` on the ASCII fragment. -/
def toUpperStr (l : Str) : Str := l.map Char.toUpper

/-- `String.prototype.toLowerCase` on the ASCII fragment. -/
def toLowerStr (l : Str) : Str := l.map Char.toLower

/-- `s.split(sep)` with a single-character separator: splits at every
occurrence; the empty string yields `[""]`. -/
def splitChar (sep : Char) : Str → List Str
  | [] => [[]]
  | c :: cs =>
    match splitChar sep cs with
    | [] => [[c]]
    | h :: t => if c = sep then [] :: h :: t else (c :: h) :: t

/-- Cons a character onto the first chunk of a split result. -/
def consHead (c : Char) : List Str → List Str
  | [] => [[c]]
  | h :: t => (c :: h) :: t

/-- `content.split(/\r\n|\n|\r/)`: the alternation prefers `\r\n`. -/
def splitLines : Str → List Str
  | [] => [[]]
  | '\r' :: '\n' :: cs => [] :: splitLines cs
  | '\r' :: cs => [] :: splitLines cs
  | '\n' :: cs => [] :: splitLines cs
  | c :: cs => consHead c (splitLines cs)

/-- `Array.prototype.join` with a single-character separator. -/
def joinChar (sep : Char) : List Str → Str
  | [] => []
  | [x] => x
  | x :: xs => x ++ sep :: joinChar sep xs

/-- `Array.prototype.join` with a string separator. -/
def joinStr (sep : Str) : List Str → Str
  | [] => []
  | [x] => x
  | x :: xs => x ++ sep ++ joinStr sep xs

/-- `a.startsWith(b)` (here: `b` is a prefix of `a`). -/
def strStarts (pre s : Str) : Bool := List.isPrefixOf pre s

/-- `hay.includes(needle)`. -/
def strContains (hay needle : Str) : Bool :=
  if strStarts needle hay then true
  else
    match hay with
    | [] => false
    | _ :: t => strContains t needle

/-- Numeric value of a digit string. -/
def natOfDigits (l : Str) : Nat :=
  l.foldl (fun acc c => 10 * acc + (c.toNat - '0'.toNat)) 0

/-- Value of the maximal leading digit run, if nonempty. -/
def leadDigits (l : Str) : Option Nat :=
  let ds := l.takeWhile Char.isDigit
  if ds = [] then none else some (natOfDigits ds)

/-- `parseInt(s, 10)`: skip whitespace, optional sign, maximal digit
prefix; `none` models `NaN`. -/
def parseIntJS (l : Str) : Option Int :=
  let l1 := l.dropWhile isJsWs
  match l1 with
  | '-' :: rest => (leadDigits rest).map (fun n => -(n : Int))
  | '+' :: rest => (leadDigits rest).map (fun n => (n : Int))
  | _ => (leadDigits l1).map (fun n => (n : Int))

-- Basic sanity checks on the primitives.
example : splitChar '|' (S "a|b||c") = [S "a", S "b", S "", S "c"] := by decide
example : splitChar '|' (S "") = [S ""] := by decide
example : parseIntJS (S "5X") = some 5 := by decide
example : parseIntJS (S " 12") = some 12 := by decide
example : parseIntJS (S "X") = none := by decide
example : jsTrim (S "  ab ") = S "ab" := by decide

/-- Structured address produced by the Address Parser
(`parseFieldReference`): segment kind, 1-based field index, optional
component and subcomponent indices. -/
structure FieldRef where
  segment : Str
  field : Int
  component : Option Int := none
  subcomponent : Option Int := none
  deriving Repr, DecidableEq

/-- `parseFieldReference` from the source: trim, uppercase, split on
dots, 2–4 parts, `parseInt` on the numeric parts, each required ≥ 1. -/
def parseFieldReference (fieldRef : Str) : Option FieldRef :=
  let trimmed := toUpperStr (jsTrim fieldRef)
  let parts := splitChar '.' trimmed
  if parts.length < 2 ∨ parts.length > 4 then none
  else
    let segment := parts.getD 0 []
    match parseIntJS (parts.getD 1 []) with
    | none => none
    | some field =>
      if segment = [] ∨ field < 1 then none
      else
        if parts.length = 2 then some { segment := segment, field := field }
        else
          match parseIntJS (parts.getD 2 []) with
          | none => none
          | some component =>
            if component < 1 then none
            else
              if parts.length = 3 then
                some { segment := segment, field := field, component := some component }
              else
                match parseIntJS (parts.getD 3 []) with
                | none => none
                | some subcomponent =>
                  if subcomponent < 1 then none
                  else
                    some { segment := segment, field := field,
                           component := some component,
                           subcomponent := some subcomponent }

example : parseFieldReference (S "PID.5.1") =
    some { segment := S "PID", field := 5, component := some 1 } := by decide
example : parseFieldReference (S "pid.5") = some { segment := S "PID", field := 5 } := by decide
example : parseFieldReference (S "PID.5X") = some { segment := S "PID", field := 5 } := by decide
example : parseFieldReference (S "PID") = none := by decide
example : parseFieldReference (S "PID.0") = none := by decide
example : parseFieldReference (S ".5") = none := by decide

/-- One parsed segment: kind label, raw fields, and the delimiters the
enclosing message was parsed with (the source stores them per segment). -/
structure Segment where
  segmentId : Str
  fields : List Str
  fieldSeparator : Char
  componentSeparator : Char
  subcomponentSeparator : Char
  deriving Repr, DecidableEq

/-- One parsed message: its delimiters plus its segments in order. -/
structure Message where
  fieldSeparator : Char
  componentSeparator : Char
  subcomponentSeparator : Char
  segments : List Segment
  deriving Repr, DecidableEq

/-- Modelled from the spec: the known segment-kind set `HL7_SEGMENT_IDS`
is defined in a repository file outside the provided sources (only its
use in the segmenter is visible); per the spec it is the fixed table of
standard segment kinds, of which the spec exercises `MSH`, `PID`, `PV1`,
`FT1`, `OBX`. -/
def HL7SegmentIds : List Str :=
  [S "MSH", S "PID", S "PV1", S "FT1", S "OBX", S "EVN", S "OBR",
   S "ORC", S "NK1", S "AL1", S "DG1", S "IN1", S "GT1", S "NTE"]

/-- Mutable state of the segmentation loop in `parseMessagesForFiltering`:
closed messages, the open message, and the currently resolved delimiters
(which persist across messages, as the source keeps them in outer `let`s). -/
structure SegState where
  messages : List Message
  current : Option Message
  fs : Char
  cs : Char
  ss : Char
  deriving Repr

/-- One iteration of the line loop of `parseMessagesForFiltering`. -/
def segStep (st : SegState) (line : Str) : SegState :=
  let t := jsTrim line
  if t = [] then st
  else
    let segmentId := t.take 3
    let st1 :=
      if segmentId = S "MSH" then
        let msgs := match st.current with
          | some m => st.messages ++ [m]
          | none => st.messages
        let fs := if t.length > 3 then t.getD 3 st.fs else st.fs
        let cs := if t.length > 7 then t.getD 4 st.cs else st.cs
        let ss := if t.length > 7 then t.getD 7 st.ss else st.ss
        { messages := msgs,
          current := some { fieldSeparator := fs, componentSeparator := cs,
                            subcomponentSeparator := ss, segments := [] },
          fs := fs, cs := cs, ss := ss }
      else st
    match st1.current with
    | none => st1
    | some cur =>
      if HL7SegmentIds.any (fun k => k = segmentId) then
        let fields :=
          if segmentId = S "MSH" then splitChar st1.fs (t.drop 4)
          else
            let afterId := t.drop 3
            if strStarts [st1.fs] afterId then splitChar st1.fs (afterId.drop 1)
            else splitChar st1.fs afterId
        { st1 with current := some { cur with segments := cur.segments ++
            [{ segmentId := segmentId, fields := fields, fieldSeparator := st1.fs,
               componentSeparator := st1.cs, subcomponentSeparator := st1.ss }] } }
      else st1

/-- `parseMessagesForFiltering`: split into lines, run the loop, flush
the last open message. -/
def parseMessagesForFiltering (content : Str) : List Message :=
  let final := (splitLines content).foldl segStep
    { messages := [], current := none, fs := '|', cs := '^', ss := '&' }
  final.messages ++ (match final.current with
    | some m => [m]
    | none => [])

/-- `extractComponentValue`: drill into a raw field value by optional
1-based component / subcomponent indices. -/
def extractComponentValue (fieldValue : Str) (compNum subcompNum : Option Int)
    (compSep subcompSep : Char) : Str :=
  if fieldValue = [] then []
  else
    match compNum with
    | none => fieldValue
    | some c =>
      let components := splitChar compSep fieldValue
      let compIndex := c - 1
      if compIndex < 0 ∨ compIndex ≥ (components.length : Int) then []
      else
        let compValue := components.getD compIndex.toNat []
        match subcompNum with
        | none => compValue
        | some sc =>
          let subcomponents := splitChar subcompSep compValue
          let subcompIndex := sc - 1
          if subcompIndex < 0 ∨ subcompIndex ≥ (subcomponents.length : Int) then []
          else subcomponents.getD subcompIndex.toNat []

/-- `extractValueFromSegment` (part_000): resolve a field of a parsed
segment, with the `MSH` positional special case, then drill down. -/
def extractValueFromSegment (segment : Segment) (fieldNum : Int)
    (compNum subcompNum : Option Int) (compSep subcompSep : Char) : Str :=
  if segment.segmentId = S "MSH" then
    if fieldNum = 1 then [segment.fieldSeparator]
    else if fieldNum = 2 then segment.fields.getD 0 []
    else
      let fieldIndex := fieldNum - 2
      if fieldIndex < 0 ∨ fieldIndex ≥ (segment.fields.length : Int) then []
      else extractComponentValue (segment.fields.getD fieldIndex.toNat [])
        compNum subcompNum compSep subcompSep
  else
    let fieldIndex := fieldNum - 1
    if fieldIndex < 0 ∨ fieldIndex ≥ (segment.fields.length : Int) then []
    else extractComponentValue (segment.fields.getD fieldIndex.toNat [])
      compNum subcompNum compSep subcompSep

/-- `extractValueFromLine` (part_001): resolve a field directly from a
raw segment line, with the same `MSH` special case. -/
def extractValueFromLine (line : Str) (segmentId : Str) (fieldNum : Int)
    (compNum subcompNum : Option Int) (fieldSep compSep subcompSep : Char) : Str :=
  if segmentId = S "MSH" then
    if fieldNum = 1 then [fieldSep]
    else if fieldNum = 2 then (line.drop 4).take 4
    else
      let fields := splitChar fieldSep (line.drop 4)
      let fieldIndex := fieldNum - 2
      if fieldIndex < 0 ∨ fieldIndex ≥ (fields.length : Int) then []
      else extractComponentValue (fields.getD fieldIndex.toNat [])
        compNum subcompNum compSep subcompSep
  else
    let afterId := line.drop 3
    let fields :=
      if strStarts [fieldSep] afterId then splitChar fieldSep (afterId.drop 1)
      else splitChar fieldSep afterId
    let fieldIndex := fieldNum - 1
    if fieldIndex < 0 ∨ fieldIndex ≥ (fields.length : Int) then []
    else extractComponentValue (fields.getD fieldIndex.toNat [])
      compNum subcompNum compSep subcompSep

example :
    parseMessagesForFiltering (S "MSH|^~\\&|A\rPID|||ID1^^^SYS||DOE^JOHN") =
      [{ fieldSeparator := '|', componentSeparator := '^', subcomponentSeparator := '&',
         segments := [
           { segmentId := S "MSH", fields := [S "^~\\&", S "A"], fieldSeparator := '|',
             componentSeparator := '^', subcomponentSeparator := '&' },
           { segmentId := S "PID",
             fields := [S "", S "", S "ID1^^^SYS", S "", S "DOE^JOHN"],
             fieldSeparator := '|', componentSeparator := '^',
             subcomponentSeparator := '&' }] }] := by decide

/-- Case-insensitive literal prefix strip (regex `i` flag). -/
def stripCI (pat s : Str) : Option Str :=
  if toLowerStr (s.take pat.length) = toLowerStr pat then some (s.drop pat.length)
  else none

/-- Tail of the unary filter regex `\s+(!exists|exists)\s*$` applied at a
given suffix: at least one whitespace, the keyword (the alternation
prefers `!exists`), then only whitespace to the end.  Returns the
lowercased operator. -/
def unaryTailMatch (rest : Str) : Option Str :=
  let w := rest.takeWhile isJsWs
  if w = [] then none
  else
    let r2 := rest.drop w.length
    match stripCI (S "!exists") r2 with
    | some tail => if tail.all isJsWs then some (S "!exists") else none
    | none =>
      match stripCI (S "exists") r2 with
      | some tail => if tail.all isJsWs then some (S "exists") else none
      | none => none

/-- Lazy group scan of `/^(.+?)\s+(!exists|exists)\s*$/i`: the shortest
nonempty line-terminator-free prefix whose remainder matches the tail.
Returns (group 1, lowercased operator). -/
def unaryScan (seen rest : Str) : Option (Str × Str) :=
  match rest with
  | [] => none
  | c :: cs =>
    if isLineTerm c then none
    else
      match unaryTailMatch cs with
      | some op => some (seen ++ [c], op)
      | none => unaryScan (seen ++ [c]) cs

/-- If a match of `\s*OP\s*` (case-insensitive) starts at the head of
`l`, return the remainder after the whole match. -/
def opMatchAt (op : Str) (l : Str) : Option Str :=
  let w := l.takeWhile isJsWs
  let r2 := l.drop w.length
  match stripCI op r2 with
  | some tail => some (tail.drop (tail.takeWhile isJsWs).length)
  | none => none

/-- `s.split(/\s*OP\s*/i)`: leftmost non-overlapping matches. Runs on
explicit fuel (one unit per consumed character) so it evaluates by
kernel reduction. -/
def splitOpAux (op : Str) : Nat → Str → Str → List Str
  | 0, acc, _ => [acc]
  | Nat.succ n, acc, l =>
    match opMatchAt op l with
    | some rest => acc :: splitOpAux op n [] rest
    | none =>
      match l with
      | [] => [acc]
      | c :: cs => splitOpAux op n (acc ++ [c]) cs

/-- `s.split(/\s*OP\s*/i)` for a nonempty operator literal. -/
def splitOpRegex (op s : Str) : List Str := splitOpAux op (s.length + 1) [] s

/-- A parsed filter condition: address text, operator, comparand. -/
structure ParsedFilter where
  fieldRef : Str
  operator : Str
  value : Str
  deriving Repr, DecidableEq

/-- One binary-operator attempt inside `parseFilterExpression`. -/
def binTry (op trimmed : Str) : Option ParsedFilter :=
  let parts := splitOpRegex op trimmed
  if parts.length = 2 then
    let fieldRef := jsTrim (parts.getD 0 [])
    let value := jsTrim (parts.getD 1 [])
    if fieldRef ≠ [] ∧ (parseFieldReference fieldRef).isSome then
      some { fieldRef := fieldRef, operator := op, value := value }
    else none
  else none

/-- Try the binary operators in the source's priority order. -/
def binTryAll : List Str → Str → Option ParsedFilter
  | [], _ => none
  | op :: rest, trimmed =>
    match binTry op trimmed with
    | some r => some r
    | none => binTryAll rest trimmed

/-- `parseFilterExpression`: unary `exists`/`!exists` shape first, then
binary `!=`, `=`, `!contains`, `contains` in that order. -/
def parseFilterExpression (filterExpr : Str) : Option ParsedFilter :=
  let trimmed := jsTrim filterExpr
  if trimmed = [] then none
  else
    let unaryRes :=
      match unaryScan [] trimmed with
      | some (g1, op) =>
        let fieldRef := jsTrim g1
        if fieldRef ≠ [] ∧ (parseFieldReference fieldRef).isSome then
          some { fieldRef := fieldRef, operator := op, value := [] }
        else none
      | none => none
    match unaryRes with
    | some r => some r
    | none => binTryAll [S "!=", S "=", S "!contains", S "contains"] trimmed

example : parseFilterExpression (S "PV1.2 = E") =
    some { fieldRef := S "PV1.2", operator := S "=", value := S "E" } := by decide
example : parseFilterExpression (S "PV1.2 != E") =
    some { fieldRef := S "PV1.2", operator := S "!=", value := S "E" } := by decide
example : parseFilterExpression (S "PID.5 exists") =
    some { fieldRef := S "PID.5", operator := S "exists", value := S "" } := by decide
example : parseFilterExpression (S "PID.5 !exists") =
    some { fieldRef := S "PID.5", operator := S "!exists", value := S "" } := by decide
example : parseFilterExpression (S "PV1.2 contains E") =
    some { fieldRef := S "PV1.2", operator := S "contains", value := S "E" } := by decide
example : parseFilterExpression (S "garbage") = none := by decide

/-- `messageMatchesSingleFilter`: evaluate one parsed condition against
the segments of one message. -/
def messageMatchesSingleFilter (messageSegments : List Segment)
    (filter : ParsedFilter) (componentSeparator subcomponentSeparator : Char) : Bool :=
  match parseFieldReference filter.fieldRef with
  | none => true
  | some parsed =>
    match messageSegments.find? (fun s => s.segmentId = parsed.segment) with
    | none =>
      filter.operator = S "!=" ∨ filter.operator = S "!contains" ∨
        filter.operator = S "!exists"
    | some segment =>
      let value := extractValueFromSegment segment parsed.field parsed.component
        parsed.subcomponent componentSeparator subcomponentSeparator
      let fieldValue := toUpperStr (jsTrim value)
      let filterValue := toUpperStr (jsTrim filter.value)
      if filter.operator = S "=" then fieldValue = filterValue
      else if filter.operator = S "!=" then fieldValue ≠ filterValue
      else if filter.operator = S "contains" then strContains fieldValue filterValue
      else if filter.operator = S "!contains" then ¬ strContains fieldValue filterValue
      else if filter.operator = S "exists" then fieldValue.length > 0
      else if filter.operator = S "!exists" then fieldValue.length = 0
      else true

/-- Regex word character (`\w`): ASCII letter, digit, or underscore. -/
def isWordChar (c : Char) : Bool := c.isAlpha ∨ c.isDigit ∨ c = '_'

/-- Word-ness of an optional character; string edges count as non-word. -/
def optIsWord : Option Char → Bool
  | some c => isWordChar c
  | none => false

/-- Replacement engine for `s.replace(new RegExp('\\b' + pat + '\\b', 'g'), repl)`
with a literal pattern: scan left to right tracking the previous
character, replacing boundary-delimited exact occurrences. Fuel is one
unit per consumed character of the original string. -/
def replaceWordAux (pat repl : Str) : Nat → Option Char → Str → Str
  | 0, _, l => l
  | Nat.succ n, prev, l =>
    if strStarts pat l ∧ (optIsWord prev ≠ optIsWord pat.head?) ∧
        (optIsWord pat.getLast? ≠ optIsWord (l.drop pat.length).head?) then
      repl ++ replaceWordAux pat repl n pat.getLast? (l.drop pat.length)
    else
      match l with
      | [] => []
      | c :: cs => c :: replaceWordAux pat repl n (some c) cs

/-- `s.replace(/\bPAT\b/g, repl)` for a nonempty literal pattern. -/
def replaceWordAll (l pat repl : Str) : Str :=
  if pat = [] then l else replaceWordAux pat repl (l.length + 1) none l

example : replaceWordAll (S "F1 AND F10") (S "F10") (S "X") = S "F1 AND X" := by decide
example : replaceWordAll (S "F1 AND F10") (S "F1") (S "X") = S "X AND F10" := by decide
example : replaceWordAll (S "AND AND") (S "AND") (S "&") = S "& &" := by decide

/-- Stable insert for the descending-length label sort. -/
def insertLenDesc (x : Str) : List Str → List Str
  | [] => [x]
  | y :: ys => if x.length ≥ y.length then x :: y :: ys else y :: insertLenDesc x ys

/-- `labels.sort((a, b) => b.length - a.length)`: a stable sort by
descending length (JS `Array.prototype.sort` is stable). -/
def sortLenDesc : List Str → List Str
  | [] => []
  | x :: xs => insertLenDesc x (sortLenDesc xs)

/-- JS-object upsert: assigning `m[k] = v` keeps an existing key at its
position and appends a new key at the end (insertion order). -/
def objUpsert (m : List (Str × Bool)) (k : Str) (v : Bool) : List (Str × Bool) :=
  if m.any (fun p => p.1 = k) then m.map (fun p => if p.1 = k then (k, v) else p)
  else m ++ [(k, v)]

/-- JS-object read `m[k]`, with a default for the absent case. -/
def lookupD (m : List (Str × Bool)) (k : Str) (d : Bool) : Bool :=
  match m.find? (fun p => p.1 = k) with
  | some p => p.2
  | none => d

/-- The label/keyword substitution pipeline of `evaluateCustomLogic`:
uppercase the expression, replace each label (longest first) by the
boolean literal of its result, then `AND`/`OR`/`NOT` by `&&`/`||`/`!`. -/
def buildEvalExpr (expression : Str) (filterResults : List (Str × Bool)) : Str :=
  let e0 := toUpperStr expression
  let labels := sortLenDesc (filterResults.map (fun p => p.1))
  let e1 := labels.foldl (fun acc lab =>
    replaceWordAll acc (toUpperStr lab)
      (if lookupD filterResults lab false then S "true" else S "false")) e0
  let e2 := replaceWordAll e1 (S "AND") (S "&&")
  let e3 := replaceWordAll e2 (S "OR") (S "||")
  replaceWordAll e3 (S "NOT") (S "!")

/-- The code string handed to the `Function` constructor in
`evaluateCustomLogic` (source line: `Function('"use strict"; return (' +
evalExpr + ')')`). -/
def functionBody (expression : Str) (filterResults : List (Str × Bool)) : Str :=
  S "\"use strict\"; return (" ++ buildEvalExpr expression filterResults ++ S ")"

/-- The character-class guard `/^[truefalse&|!() ]+$/i` applied before
the dynamic evaluation. -/
def isGuardChar (c : Char) : Bool :=
  let lc := c.toLower
  lc = 't' ∨ lc = 'r' ∨ lc = 'u' ∨ lc = 'e' ∨ lc = 'f' ∨ lc = 'a' ∨
  lc = 'l' ∨ lc = 's' ∨ c = '&' ∨ c = '|' ∨ c = '!' ∨ c = '(' ∨
  c = ')' ∨ c = ' '

/-- The guard test of `evaluateCustomLogic`. -/
def guardOK (l : Str) : Bool := l ≠ [] ∧ l.all isGuardChar

/-- Token set of the JavaScript expressions reachable after the guard:
boolean literals (case-sensitive, as in the host language), identifiers
(any other letter run — defined nowhere, so evaluating one throws a
ReferenceError), the strict-mode reserved words `let`/`else` (whose
presence is a SyntaxError, handled in the lexer), `&&`, `||`, the
single-character bitwise `&`/`|`, `!`, and parentheses. -/
inductive HostTok where
  | lit (b : Bool)
  | ident
  | andand | oror | amp | pipe | bang | lp | rp
  deriving Repr, DecidableEq

/-- Lexer for the guarded fragment.  `none` models a SyntaxError at
`Function` construction (only the reserved words `let`/`else` and
characters outside the guard class trigger it). -/
def hostTokenize : Nat → Str → Option (List HostTok)
  | 0, _ => none
  | _ + 1, [] => some []
  | n + 1, ' ' :: r => hostTokenize n r
  | n + 1, '(' :: r => (hostTokenize n r).map (HostTok.lp :: ·)
  | n + 1, ')' :: r => (hostTokenize n r).map (HostTok.rp :: ·)
  | n + 1, '!' :: r => (hostTokenize n r).map (HostTok.bang :: ·)
  | n + 1, '&' :: '&' :: r => (hostTokenize n r).map (HostTok.andand :: ·)
  | n + 1, '&' :: r => (hostTokenize n r).map (HostTok.amp :: ·)
  | n + 1, '|' :: '|' :: r => (hostTokenize n r).map (HostTok.oror :: ·)
  | n + 1, '|' :: r => (hostTokenize n r).map (HostTok.pipe :: ·)
  | n + 1, l =>
    let run := l.takeWhile Char.isAlpha
    if run = [] then none
    else if run = S "true" then
      (hostTokenize n (l.drop run.length)).map (HostTok.lit true :: ·)
    else if run = S "false" then
      (hostTokenize n (l.drop run.length)).map (HostTok.lit false :: ·)
    else if run = S "let" ∨ run = S "else" then none
    else (hostTokenize n (l.drop run.length)).map (HostTok.ident :: ·)

/-- Abstract syntax of the guarded fragment, with the host precedence
`!` > `&` > `|` > `&&` > `||` and call expressions (a parenthesized
juxtaposition such as `(true)(false)` parses as a call). -/
inductive HostExpr where
  | lit (b : Bool)
  | ident
  | notE (e : HostExpr)
  | bitAnd (a b : HostExpr)
  | bitOr (a b : HostExpr)
  | logAnd (a b : HostExpr)
  | logOr (a b : HostExpr)
  | call (callee : HostExpr) (arg : Option HostExpr)
  deriving Repr

mutual

/-- Primary expressions (literal, identifier, parenthesized), followed
by any call suffixes. -/
def hostParsePrimary : Nat → List HostTok → Option (HostExpr × List HostTok)
  | 0, _ => none
  | n + 1, HostTok.lit b :: r => hostParseCalls n (HostExpr.lit b) r
  | n + 1, HostTok.ident :: r => hostParseCalls n HostExpr.ident r
  | n + 1, HostTok.lp :: r =>
    match hostParseOr n r with
    | some (e, HostTok.rp :: r2) => hostParseCalls n e r2
    | _ => none
  | _, _ => none

/-- Call-suffix loop: `callee()` or `callee(expr)`, left-nested. -/
def hostParseCalls : Nat → HostExpr → List HostTok → Option (HostExpr × List HostTok)
  | 0, _, _ => none
  | n + 1, e, HostTok.lp :: HostTok.rp :: r =>
    hostParseCalls n (HostExpr.call e none) r
  | n + 1, e, HostTok.lp :: r =>
    match hostParseOr n r with
    | some (a, HostTok.rp :: r2) => hostParseCalls n (HostExpr.call e (some a)) r2
    | _ => none
  | _ + 1, e, r => some (e, r)

/-- `!` level. -/
def hostParseUnary : Nat → List HostTok → Option (HostExpr × List HostTok)
  | 0, _ => none
  | n + 1, HostTok.bang :: r =>
    match hostParseUnary n r with
    | some (e, r2) => some (HostExpr.notE e, r2)
    | none => none
  | n + 1, toks => hostParsePrimary n toks

/-- `&` level. -/
def hostParseBitAnd : Nat → List HostTok → Option (HostExpr × List HostTok)
  | 0, _ => none
  | n + 1, toks =>
    match hostParseUnary n toks with
    | none => none
    | some (a, rest) => hostParseBitAndTail n a rest

/-- Left-associated continuation of the `&` level. -/
def hostParseBitAndTail : Nat → HostExpr → List HostTok → Option (HostExpr × List HostTok)
  | 0, _, _ => none
  | n + 1, a, HostTok.amp :: r =>
    match hostParseUnary n r with
    | none => none
    | some (b, rest) => hostParseBitAndTail n (HostExpr.bitAnd a b) rest
  | _ + 1, a, rest => some (a, rest)

/-- `|` level. -/
def hostParseBitOr : Nat → List HostTok → Option (HostExpr × List HostTok)
  | 0, _ => none
  | n + 1, toks =>
    match hostParseBitAnd n toks with
    | none => none
    | some (a, rest) => hostParseBitOrTail n a rest

/-- Left-associated continuation of the `|` level. -/
def hostParseBitOrTail : Nat → HostExpr → List HostTok → Option (HostExpr × List HostTok)
  | 0, _, _ => none
  | n + 1, a, HostTok.pipe :: r =>
    match hostParseBitAnd n r with
    | none => none
    | some (b, rest) => hostParseBitOrTail n (HostExpr.bitOr a b) rest
  | _ + 1, a, rest => some (a, rest)

/-- `&&` level. -/
def hostParseAnd : Nat → List HostTok → Option (HostExpr × List HostTok)
  | 0, _ => none
  | n + 1, toks =>
    match hostParseBitOr n toks with
    | none => none
    | some (a, rest) => hostParseAndTail n a rest

/-- Left-associated continuation of the `&&` level. -/
def hostParseAndTail : Nat → HostExpr → List HostTok → Option (HostExpr × List HostTok)
  | 0, _, _ => none
  | n + 1, a, HostTok.andand :: r =>
    match hostParseBitOr n r with
    | none => none
    | some (b, rest) => hostParseAndTail n (HostExpr.logAnd a b) rest
  | _ + 1, a, rest => some (a, rest)

/-- `||` level (top). -/
def hostParseOr : Nat → List HostTok → Option (HostExpr × List HostTok)
  | 0, _ => none
  | n + 1, toks =>
    match hostParseAnd n toks with
    | none => none
    | some (a, rest) => hostParseOrTail n a rest

/-- Left-associated continuation of the `||` level. -/
def hostParseOrTail : Nat → HostExpr → List HostTok → Option (HostExpr × List HostTok)
  | 0, _, _ => none
  | n + 1, a, HostTok.oror :: r =>
    match hostParseAnd n r with
    | none => none
    | some (b, rest) => hostParseOrTail n (HostExpr.logOr a b) rest
  | _ + 1, a, rest => some (a, rest)

end

/-- A run-time value of the guarded fragment: a boolean, or a number
produced by the bitwise operators (always a 32-bit integer; here only
`0`/`1` are reachable since the operands come from booleans). -/
inductive HostVal where
  | bool (b : Bool)
  | num (n : Int)
  deriving Repr, DecidableEq

/-- Host truthiness: `false` and `0` are falsy. -/
def hostTruthy : HostVal → Bool
  | HostVal.bool b => b
  | HostVal.num n => n ≠ 0

/-- `ToInt32` on the reachable values (`true`→1, `false`→0; numbers are
already 32-bit results of the operators below). -/
def hostToInt32 : HostVal → Int
  | HostVal.bool b => if b then 1 else 0
  | HostVal.num n => n

/-- Bitwise AND on the reachable (non-negative) 32-bit values. -/
def landI (a b : Int) : Int := Int.ofNat (a.toNat &&& b.toNat)

/-- Bitwise OR on the reachable (non-negative) 32-bit values. -/
def lorI (a b : Int) : Int := Int.ofNat (a.toNat ||| b.toNat)

/-- Evaluation of a parsed guarded expression; `none` models a thrown
error (a ReferenceError from an undefined identifier, or a TypeError
from calling a non-function).  `&&`/`||` short-circuit and return the
deciding operand's value, as in the host language. -/
def hostEval : HostExpr → Option HostVal
  | HostExpr.lit b => some (HostVal.bool b)
  | HostExpr.ident => none
  | HostExpr.notE e => (hostEval e).map (fun v => HostVal.bool (¬ hostTruthy v))
  | HostExpr.bitAnd a b =>
    match hostEval a, hostEval b with
    | some va, some vb => some (HostVal.num (landI (hostToInt32 va) (hostToInt32 vb)))
    | _, _ => none
  | HostExpr.bitOr a b =>
    match hostEval a, hostEval b with
    | some va, some vb => some (HostVal.num (lorI (hostToInt32 va) (hostToInt32 vb)))
    | _, _ => none
  | HostExpr.logAnd a b =>
    match hostEval a with
    | none => none
    | some va => if hostTruthy va then hostEval b else some va
  | HostExpr.logOr a b =>
    match hostEval a with
    | none => none
    | some va => if hostTruthy va then some va else hostEval b
  | HostExpr.call c arg =>
    match hostEval c with
    | none => none
    | some _ =>
      match arg with
      | some e =>
        match hostEval e with
        | none => none
        | some _ => none
      | none => none

/-- Models `Function('"use strict"; return (' + l + ')')()` on guarded
input: lex, parse the whole string, evaluate.  `none` models a thrown
error (SyntaxError at construction, or ReferenceError/TypeError during
evaluation); `some v` is the returned value. -/
def jsFunctionEval (l : Str) : Option HostVal :=
  match hostTokenize (l.length + 1) l with
  | none => none
  | some toks =>
    match hostParseOr (8 * toks.length + 16) toks with
    | some (e, []) => hostEval e
    | _ => none

example : jsFunctionEval (S "true && false") = some (HostVal.bool false) := by decide
example : jsFunctionEval (S "true && (false || true)") = some (HostVal.bool true) := by decide
example : jsFunctionEval (S "!false && true") = some (HostVal.bool true) := by decide
-- An undefined identifier throws only when it is actually evaluated.
example : jsFunctionEval (S "true && FALSE") = none := by decide
example : jsFunctionEval (S "true || FALSE") = some (HostVal.bool true) := by decide
example : jsFunctionEval (S "truefalse") = none := by decide
-- The bitwise operators return numbers instead of throwing.
example : jsFunctionEval (S "true & false") = some (HostVal.num 0) := by decide
example : jsFunctionEval (S "true | false") = some (HostVal.num 1) := by decide
-- Syntax errors at construction time; calls throw TypeError unless
-- short-circuited away.
example : jsFunctionEval (S "()") = none := by decide
example : jsFunctionEval (S "true &&") = none := by decide
example : jsFunctionEval (S "(true)(false)") = none := by decide
example : jsFunctionEval (S "false && (true)(false)") = some (HostVal.bool false) := by decide

/-- `evaluateCustomLogic`: substitute, guard, then hand the code string
to the host evaluator; a failed guard or a thrown evaluation yields
`true`.  The returned host value is observed through its truthiness,
which is how the module's only consumer (`Array.prototype.filter` over
`messageMatchesFilters`) reads it. -/
def evaluateCustomLogic (expression : Str) (filterResults : List (Str × Bool)) : Bool :=
  let evalExpr := buildEvalExpr expression filterResults
  if guardOK evalExpr = false then true
  else
    match jsFunctionEval evalExpr with
    | some v => hostTruthy v
    | none => true

example : evaluateCustomLogic (S "F1 AND NOT F2")
    [(S "F1", true), (S "F2", false)] = true := by decide
example : evaluateCustomLogic (S "F1 AND NOT F2")
    [(S "F1", true), (S "F2", true)] = false := by decide
-- A leftover uppercase identifier is a ReferenceError when reached.
example : evaluateCustomLogic (S "F1 AND FALSE") [(S "F1", true)] = true := by decide
example : evaluateCustomLogic (S "F1 OR FALSE") [(S "F1", true)] = true := by decide
example : evaluateCustomLogic (S "NOT F1 AND FALSE") [(S "F1", true)] = false := by decide
-- A single ampersand evaluates bitwise (to 0 here) without throwing.
example : evaluateCustomLogic (S "F1 & F2")
    [(S "F1", true), (S "F2", false)] = false := by decide

/-- A declared filter condition: label (e.g. `F1`) plus expression text
(`Filter` in the source; renamed since Lean already binds that name). -/
structure FilterCond where
  label : Str
  expression : Str
  deriving Repr, DecidableEq

/-- The FilterSet handed to the engine: conditions, combination mode
(`single` / `AND` / `OR` / `custom`), and the custom expression (empty
when absent). -/
structure FiltersConfig where
  filters : List FilterCond
  logic : Str
  expression : Str := []
  deriving Repr, DecidableEq

/-- The per-condition evaluation inside `messageMatchesFilters`: parse
the expression; an unparseable expression is treated as `true` so it
does not exclude messages. -/
def evalCondition (messageSegments : List Segment)
    (componentSeparator subcomponentSeparator : Char) (f : FilterCond) : Bool :=
  match parseFilterExpression f.expression with
  | some pf =>
    messageMatchesSingleFilter messageSegments pf componentSeparator subcomponentSeparator
  | none => true

/-- The `filterResults` object of `messageMatchesFilters`, keyed by
label with JS-object insertion/overwrite semantics. -/
def buildFilterResults (messageSegments : List Segment) (filters : List FilterCond)
    (componentSeparator subcomponentSeparator : Char) : List (Str × Bool) :=
  filters.foldl (fun m f =>
    objUpsert m f.label (evalCondition messageSegments componentSeparator subcomponentSeparator f)) []

/-- `messageMatchesFilters`: combine the individual condition results
according to the configured logic. -/
def messageMatchesFilters (messageSegments : List Segment)
    (filtersConfig : Option FiltersConfig)
    (componentSeparator subcomponentSeparator : Char) : Bool :=
  match filtersConfig with
  | none => true
  | some cfg =>
    if cfg.filters = [] then true
    else
      let filterResults :=
        buildFilterResults messageSegments cfg.filters componentSeparator subcomponentSeparator
      if cfg.logic = S "single" ∨ cfg.filters.length = 1 then
        lookupD filterResults ((cfg.filters.headD { label := [], expression := [] }).label) false
      else if cfg.logic = S "AND" then
        (filterResults.map (fun p => p.2)).all (fun r => r = true)
      else if cfg.logic = S "OR" then
        (filterResults.map (fun p => p.2)).any (fun r => r = true)
      else if cfg.logic = S "custom" ∧ cfg.expression ≠ [] then
        evaluateCustomLogic cfg.expression filterResults
      else
        (filterResults.map (fun p => p.2)).all (fun r => r = true)

/-- Result of `validateCustomLogic`. -/
structure Validation where
  valid : Bool
  error : Str := []
  deriving Repr, DecidableEq

/-- Parenthesis scan of `validateCustomLogic`: `none` when the count
ever goes negative, otherwise the final count. -/
def parenCount : Int → Str → Option Int
  | k, [] => some k
  | k, c :: cs =>
    let k2 := if c = '(' then k + 1 else if c = ')' then k - 1 else k
    if k2 < 0 then none else parenCount k2 cs

/-- Does the string have an adjacent character pair satisfying `p`? -/
def hasAdjPair (p : Char → Char → Bool) : Str → Bool
  | [] => false
  | [_] => false
  | a :: b :: r => p a b ∨ hasAdjPair p (b :: r)

/-- `/F\d+/gi` global scan: every occurrence of `F`/`f` followed by a
maximal nonempty digit run, left to right, non-overlapping. -/
def findFNumsAux : Nat → Str → List Str
  | 0, _ => []
  | _ + 1, [] => []
  | n + 1, c :: cs =>
    if c = 'F' ∨ c = 'f' then
      let ds := cs.takeWhile Char.isDigit
      if ds ≠ [] then (c :: ds) :: findFNumsAux n (cs.drop ds.length)
      else findFNumsAux n cs
    else findFNumsAux n cs

/-- All matches of `/F\d+/gi` in a string. -/
def findFNums (l : Str) : List Str := findFNumsAux (l.length + 1) l

/-- Is the simplified character one of the placeholder/operator class
`[X&|!]`? -/
def isSimpChar (c : Char) : Bool := c = 'X' ∨ c = '&' ∨ c = '|' ∨ c = '!'

/-- `/^[&|]/` test of the simplified expression. -/
def headIsAndOr (l : Str) : Bool :=
  match l.head? with
  | some c => c = '&' ∨ c = '|'
  | none => false

/-- `/[&|!]$/` test of the simplified expression. -/
def lastIsOpChar (l : Str) : Bool :=
  match l.getLast? with
  | some c => c = '&' ∨ c = '|' ∨ c = '!'
  | none => false

/-- `validateCustomLogic`: structural validation of a custom logic
expression against the declared labels, reproducing the source's check
order and error strings. -/
def validateCustomLogic (expression : Str) (availableLabels : List Str) : Validation :=
  if jsTrim expression = [] then
    { valid := false, error := S "Custom logic expression is empty" }
  else
    let expr := toUpperStr (jsTrim expression)
    match parenCount 0 expr with
    | none =>
      { valid := false, error := S "Unbalanced parentheses - extra closing parenthesis" }
    | some k =>
      if k ≠ 0 then
        { valid := false, error := S "Unbalanced parentheses - missing closing parenthesis" }
      else
        let sortedLabels := sortLenDesc availableLabels
        let n1 := sortedLabels.foldl
          (fun acc lab => replaceWordAll acc (toUpperStr lab) (S "X")) expr
        let n2 := replaceWordAll n1 (S "AND") (S "&")
        let n3 := replaceWordAll n2 (S "OR") (S "|")
        let n4 := replaceWordAll n3 (S "NOT") (S "!")
        let simplified := n4.filter (fun c => ¬ (isJsWs c ∨ c = '(' ∨ c = ')'))
        let unmatchedFilters := findFNums simplified
        if unmatchedFilters ≠ [] then
          { valid := false, error := S "Unknown filter label(s): " ++
              joinStr (S ", ") unmatchedFilters ++ S ". Available labels: " ++
              joinStr (S ", ") availableLabels }
        else
          let fullOK := simplified ≠ [] ∧ simplified.all isSimpChar
          let invalidChars := simplified.filter (fun c => ¬ isSimpChar c)
          if ¬ fullOK ∧ invalidChars ≠ [] then
            { valid := false, error := S "Invalid characters or words in expression. Use only filter labels (" ++
                joinStr (S ", ") availableLabels ++ S "), AND, OR, NOT, and parentheses." }
          else if headIsAndOr simplified then
            { valid := false, error := S "Expression cannot start with AND/OR" }
          else if lastIsOpChar simplified then
            { valid := false, error := S "Expression cannot end with AND/OR/NOT" }
          else if hasAdjPair (fun a b => (a = '&' ∨ a = '|') ∧ (b = '&' ∨ b = '|')) simplified then
            { valid := false, error := S "Cannot have consecutive AND/OR operators" }
          else if hasAdjPair (fun a b => a = '!' ∧ (b = '&' ∨ b = '|')) simplified then
            { valid := false, error := S "NOT must be followed by a filter label, not AND/OR" }
          else if hasAdjPair (fun a b => a = 'X' ∧ b = '!') simplified then
            { valid := false, error := S "Missing AND/OR between filter label and NOT" }
          else if hasAdjPair (fun a b => a = 'X' ∧ b = 'X') simplified then
            { valid := false, error := S "Missing AND/OR between filter labels" }
          else { valid := true }

example : (validateCustomLogic (S "F1 AND (F2 OR F3)")
    [S "F1", S "F2", S "F3"]).valid = true := by decide
example : validateCustomLogic (S "F1 AND F9") [S "F1"] =
    { valid := false,
      error := S "Unknown filter label(s): F9. Available labels: F1" } := by decide
example : (validateCustomLogic (S "F1 AND") [S "F1"]).error =
    S "Expression cannot end with AND/OR/NOT" := by decide

/-- Rejoin one segment for the filtered-message export: kind label,
field separator, then the fields joined with the same separator (the
source's `MSH` and non-`MSH` branches are textually identical). -/
def segToLine (seg : Segment) : Str :=
  seg.segmentId ++ [seg.fieldSeparator] ++ joinChar seg.fieldSeparator seg.fields

/-- The filtered-message export text: segments joined with `\r` inside
a message, messages joined with `\r\r\n`. -/
def exportContent (msgs : List Message) : Str :=
  joinStr (S "\r\r\n") (msgs.map (fun m => joinChar '\r' (m.segments.map segToLine)))

/-- The human-readable filter description built by `extractFieldValues`. -/
def filterDescription (cfg : FiltersConfig) : Str :=
  if cfg.filters.length = 1 then
    (cfg.filters.headD { label := [], expression := [] }).expression
  else
    let filterLabels := joinStr (S ", ")
      (cfg.filters.map (fun f => f.label ++ S ": " ++ f.expression))
    if cfg.logic = S "custom" then
      filterLabels ++ S " [Logic: " ++ cfg.expression ++ S "]"
    else
      filterLabels ++ S " [Logic: " ++ cfg.logic ++ S "]"

/-- The successful payload of `extractFieldValues`. -/
structure ExtractOk where
  results : List (Nat × Str)
  totalMessages : Nat
  filteredMessages : Nat
  filterApplied : Bool
  filterExpression : Str
  filtersConfig : Option FiltersConfig
  filteredHL7Content : Str
  filterOnly : Bool
  deriving Repr, DecidableEq

/-- `extractFieldValues` returns either a tagged error object or the
payload. -/
inductive ExtractResult where
  | error (msg : Str)
  | ok (r : ExtractOk)
  deriving Repr, DecidableEq

/-- The per-message extraction loop of `extractFieldValues`: every
segment matching the address's kind contributes one extraction; a
message with no matching segment contributes one empty extraction. -/
def extractionResults (parsed : FieldRef) (filteredMessages : List Message) :
    List (Nat × Str) :=
  (filteredMessages.enum).flatMap (fun p =>
    let idx := p.1
    let msg := p.2
    let matchingSegments := msg.segments.filter (fun s => s.segmentId = parsed.segment)
    if matchingSegments = [] then [(idx, ([] : Str))]
    else matchingSegments.map (fun seg =>
      (idx, extractValueFromSegment seg parsed.field parsed.component parsed.subcomponent
        msg.componentSeparator msg.subcomponentSeparator)))

/-- Tail of `extractFieldValues` once filtering is settled: run the
extraction loop, build the export text, assemble the result object. -/
def extractAssemble (filterOnly : Bool) (parsed : Option FieldRef)
    (totalMessages : Nat) (hasValidFilters : Bool) (filteredMessages : List Message)
    (desc : Str) (cfgEcho : Option FiltersConfig) : ExtractResult :=
  let results :=
    match parsed with
    | some p => if filterOnly then [] else extractionResults p filteredMessages
    | none => []
  let filteredHL7Content := if hasValidFilters then exportContent filteredMessages else []
  .ok { results := results, totalMessages := totalMessages,
        filteredMessages := filteredMessages.length,
        filterApplied := hasValidFilters, filterExpression := desc,
        filtersConfig := if hasValidFilters then cfgEcho else none,
        filteredHL7Content := filteredHL7Content, filterOnly := filterOnly }

/-- `extractFieldValues`: validate the address and the filters, filter
the messages, extract values, and build the export text. -/
def extractFieldValues (content fieldRef : Str)
    (filtersConfig : Option FiltersConfig) : ExtractResult :=
  let filterOnly := jsTrim fieldRef = []
  let parsed := if filterOnly then none else parseFieldReference fieldRef
  if ¬ filterOnly ∧ parsed = none then
    .error (S "Invalid field reference. Use format like PID.5, FT1.13, or MSH.9.1")
  else
    let messages := parseMessagesForFiltering content
    let totalMessages := messages.length
    match filtersConfig with
    | some cfg =>
      if cfg.filters ≠ [] then
        let invalidFilters :=
          (cfg.filters.filter (fun f => parseFilterExpression f.expression = none)).map
            (fun f => f.label)
        if invalidFilters ≠ [] then
          .error (S "Invalid filter format for " ++ joinStr (S ", ") invalidFilters ++
            S ". Use format like \"PV1.2 = E\", \"PV1.2 != E\", \"PV1.2 contains E\", or \"PV1.2 exists\"")
        else if cfg.logic = S "custom" ∧ jsTrim cfg.expression = [] then
          .error (S "Please enter a custom logic expression (e.g., \"F1 AND (F2 OR F3)\")")
        else
          let validation :=
            validateCustomLogic cfg.expression (cfg.filters.map (fun f => f.label))
          if cfg.logic = S "custom" ∧ validation.valid = false then
            .error (S "Invalid custom logic: " ++ validation.error)
          else
            let filtered := messages.filter (fun msg =>
              messageMatchesFilters msg.segments (some cfg)
                msg.componentSeparator msg.subcomponentSeparator)
            extractAssemble filterOnly parsed totalMessages true filtered
              (filterDescription cfg) (some cfg)
      else extractAssemble filterOnly parsed totalMessages false messages [] none
    | none => extractAssemble filterOnly parsed totalMessages false messages [] none

/-- Insertion-ordered counting map update (`valueCounts[v]++`). -/
def countUpsert (vc : List (Str × Nat)) (k : Str) : List (Str × Nat) :=
  if vc.any (fun p => p.1 = k) then
    vc.map (fun p => if p.1 = k then (p.1, p.2 + 1) else p)
  else vc ++ [(k, 1)]

/-- Insertion-ordered set insertion (`Set.prototype.add`). -/
def setAdd (l : List Nat) (x : Nat) : List Nat :=
  if l.any (fun y => y = x) then l else l ++ [x]

/-- Stable insert for the descending-count sort of the frequency table. -/
def insertCountDesc (x : Str × Nat) : List (Str × Nat) → List (Str × Nat)
  | [] => [x]
  | y :: ys => if x.2 ≥ y.2 then x :: y :: ys else y :: insertCountDesc x ys

/-- `entries.sort((a, b) => b[1] - a[1])`: stable sort by descending
count (ties keep first-seen insertion order). -/
def sortCountDesc : List (Str × Nat) → List (Str × Nat)
  | [] => []
  | x :: xs => insertCountDesc x (sortCountDesc xs)

/-- The full statistics payload of `generateStatistics`. -/
structure StatsFull where
  totalMessages : Nat
  filteredMessages : Option Nat
  filterApplied : Bool
  filterExpression : Str
  messagesWithValue : Nat
  messagesWithoutValue : Int
  totalOccurrences : Nat
  distinctValues : List (Str × Nat)
  segmentNotFound : Bool
  filteredHL7Content : Str
  deriving Repr, DecidableEq

/-- `generateStatistics` returns an error echo, a reduced filter-only
object, or the full statistics. -/
inductive StatsResult where
  | error (msg : Str)
  | filterOnlyRes (totalMessages : Nat) (filteredMessages : Option Nat)
      (filterApplied : Bool) (filterExpression : Str) (filteredHL7Content : Str)
  | full (r : StatsFull)
  deriving Repr, DecidableEq

/-- `generateStatistics`: classify and count the extractions. -/
def generateStatistics : ExtractResult → StatsResult
  | .error m => .error m
  | .ok r =>
    if r.filterOnly then
      .filterOnlyRes r.totalMessages
        (if r.filterApplied then some r.filteredMessages else none)
        r.filterApplied r.filterExpression r.filteredHL7Content
    else
      let messageCount := if r.filterApplied then r.filteredMessages else r.totalMessages
      let st := r.results.foldl
        (fun (acc : List (Str × Nat) × List Nat × List Nat) item =>
          let value := jsTrim item.2
          let displayValue := if value = [] then S "(empty)" else value
          let vc := countUpsert acc.1 displayValue
          if value ≠ [] then (vc, setAdd acc.2.1 item.1, acc.2.2)
          else (vc, acc.2.1, setAdd acc.2.2 item.1))
        ([], [], [])
      let valueCounts := st.1
      let messageHasValue := st.2.1
      let messageHasNoValue := st.2.2
      let messagesWithValue := messageHasValue.length
      let messagesWithOnlyEmpty :=
        (messageHasNoValue.filter (fun m => ¬ messageHasValue.any (fun x => x = m))).length
      let messagesWithSegment := (messageHasValue ++ messageHasNoValue).foldl setAdd []
      let messagesWithoutSegment : Int :=
        (messageCount : Int) - (messagesWithSegment.length : Int)
      let messagesWithoutValue : Int := (messagesWithOnlyEmpty : Int) + messagesWithoutSegment
      .full { totalMessages := r.totalMessages,
              filteredMessages := if r.filterApplied then some r.filteredMessages else none,
              filterApplied := r.filterApplied,
              filterExpression := r.filterExpression,
              messagesWithValue := messagesWithValue,
              messagesWithoutValue := messagesWithoutValue,
              totalOccurrences := r.results.length,
              distinctValues := sortCountDesc valueCounts,
              segmentNotFound := r.results.length = 0 ∧ r.filterApplied = false,
              filteredHL7Content := r.filteredHL7Content }

-- Pipeline sanity checks from the spec's testable-properties section.
example :
    (match extractFieldValues
        (S "MSH|^~\\&|A\rPID|||ID1^^^SYS||DOE^JOHN\rMSH|^~\\&|A\rPID|||ID2^^^SYS||SMITH^JANE")
        (S "PID.5.1") none with
      | .ok r => r.results
      | .error _ => []) = [(0, S "DOE"), (1, S "SMITH")] := by decide

example :
    (match generateStatistics (extractFieldValues
        (S "MSH|^~\\&|A\rPID|||ID1^^^SYS||DOE^JOHN\rMSH|^~\\&|A\rPID|||ID2^^^SYS||SMITH^JANE")
        (S "PID.99") none) with
      | .full r => (r.messagesWithValue, r.messagesWithoutValue, r.distinctValues)
      | _ => (99, 99, [])) = (0, 2, [(S "(empty)", 2)]) := by decide

/-- Projection of the export text out of an `extractFieldValues` result
(errors carry no export text). -/
def exportOf : ExtractResult → Str
  | .error _ => []
  | .ok r => r.filteredHL7Content

/-- A sample parsed `MSH` segment for witnesses. -/
def mshExampleSeg : Segment :=
  { segmentId := S "MSH", fields := [S "^~\\&", S "A", S "B"],
    fieldSeparator := '|', componentSeparator := '^', subcomponentSeparator := '&' }

/-- A sample parsed `PID` segment for witnesses. -/
def pidExampleSeg : Segment :=
  { segmentId := S "PID", fields := [S "p1", S "p2", S "p3"],
    fieldSeparator := '|', componentSeparator := '^', subcomponentSeparator := '&' }

/-- `extractComponentValue` with no component requested is the identity
on the field value. -/
theorem extractComponentValue_none (fv : Str) (cs ss : Char) :
    extractComponentValue fv none none cs ss = fv := by
  unfold extractComponentValue
  split
  · simp_all
  · rfl

/-- C1: the claim says custom-logic evaluation goes through a closed
tokenizer/parser and never through a generic code-execution facility
applied to a string built from the expression text.  The source does the
opposite: `evaluateCustomLogic` substitutes the boolean results into the
expression text and passes the resulting JavaScript code string to the
`Function` constructor.  At the failing input `F1 AND F2` with
F1 ↦ true and F2 ↦ false, the code string handed to `Function` is
exactly `"use strict"; return (true && false)`. -/
theorem c1_function_constructor_code_string :
    functionBody (S "F1 AND F2") [(S "F1", true), (S "F2", false)] =
      S "\"use strict\"; return (true && false)" := by decide

/-- C2: field resolution of the Value Resolver, in both implementations
and with no component/subcomponent drill-down requested.  For
`extractValueFromSegment` (part_000): on an `MSH` segment, field 1 is
the field-separator character, field 2 is the raw first split slot (the
encoding-character block as parsed by the segmenter), and field N
(N > 2) is `fields[N-2]`, empty when out of range; on any other segment
kind field N is `fields[N-1]`, empty when out of range (`List.getD`
returns the empty default out of range).  For `extractValueFromLine`
(part_001), operating directly on the raw line: on an `MSH` line,
field 1 is the separator character, field 2 is the four-character
encoding block `line.substring(4, 8)`, and field N (N > 2) is slot
`N-2` of the separator split of `line.substring(4)`; on any other kind,
field N is slot `N-1` of the separator split of `line.substring(3)`
(with a leading separator first stripped), empty when out of range. -/
theorem c2_value_resolver_field_indexing :
    (∀ (seg : Segment) (cs ss : Char),
      (seg.segmentId = S "MSH" →
        extractValueFromSegment seg 1 none none cs ss = [seg.fieldSeparator] ∧
        extractValueFromSegment seg 2 none none cs ss = seg.fields.getD 0 [] ∧
        ∀ N : Nat, 2 < N →
          extractValueFromSegment seg (N : Int) none none cs ss =
            seg.fields.getD (N - 2) []) ∧
      (seg.segmentId ≠ S "MSH" →
        ∀ N : Nat, 1 ≤ N →
          extractValueFromSegment seg (N : Int) none none cs ss =
            seg.fields.getD (N - 1) [])) ∧
    (∀ (line segmentId : Str) (fieldSep cs ss : Char),
      (segmentId = S "MSH" →
        extractValueFromLine line segmentId 1 none none fieldSep cs ss = [fieldSep] ∧
        extractValueFromLine line segmentId 2 none none fieldSep cs ss =
          (line.drop 4).take 4 ∧
        ∀ N : Nat, 2 < N →
          extractValueFromLine line segmentId (N : Int) none none fieldSep cs ss =
            (splitChar fieldSep (line.drop 4)).getD (N - 2) []) ∧
      (segmentId ≠ S "MSH" →
        ∀ N : Nat, 1 ≤ N →
          extractValueFromLine line segmentId (N : Int) none none fieldSep cs ss =
            (if strStarts [fieldSep] (line.drop 3) then
                splitChar fieldSep ((line.drop 3).drop 1)
              else splitChar fieldSep (line.drop 3)).getD (N - 1) [])) := by
  constructor
  · intro seg cs ss
    constructor
    · intro h
      refine ⟨?_, ?_, ?_⟩
      · unfold extractValueFromSegment
        simp [h]
      · unfold extractValueFromSegment
        simp [h]
      · intro N hN
        unfold extractValueFromSegment
        simp only [h, if_true, if_pos rfl]
        have h1 : ¬ ((N : Int) = 1) := by omega
        have h2 : ¬ ((N : Int) = 2) := by omega
        simp only [h1, h2, if_false]
        by_cases hr : (N : Int) - 2 ≥ (seg.fields.length : Int)
        · rw [if_pos (Or.inr hr)]
          rw [List.getD_eq_default]
          omega
        · rw [if_neg]
          · rw [extractComponentValue_none]
            congr 1
            omega
          · push_neg
            constructor
            · omega
            · omega
    · intro h N hN
      unfold extractValueFromSegment
      simp only [h, if_false]
      by_cases hr : (N : Int) - 1 ≥ (seg.fields.length : Int)
      · rw [if_pos (Or.inr hr)]
        rw [List.getD_eq_default]
        omega
      · rw [if_neg]
        · rw [extractComponentValue_none]
          congr 1
          omega
        · push_neg
          constructor
          · omega
          · omega
  · intro line segmentId fieldSep cs ss
    constructor
    · intro h
      refine ⟨?_, ?_, ?_⟩
      · unfold extractValueFromLine
        simp [h]
      · unfold extractValueFromLine
        simp [h]
      · intro N hN
        unfold extractValueFromLine
        simp only [h, if_true, if_pos rfl]
        have h1 : ¬ ((N : Int) = 1) := by omega
        have h2 : ¬ ((N : Int) = 2) := by omega
        simp only [h1, h2, if_false]
        by_cases hr : (N : Int) - 2 ≥ ((splitChar fieldSep (line.drop 4)).length : Int)
        · rw [if_pos (Or.inr hr)]
          rw [List.getD_eq_default]
          omega
        · rw [if_neg]
          · rw [extractComponentValue_none]
            congr 1
            omega
          · push_neg
            constructor
            · omega
            · omega
    · intro h N hN
      unfold extractValueFromLine
      simp only [h, if_false]
      by_cases hs : strStarts [fieldSep] (line.drop 3)
      · simp only [hs, if_true, if_pos rfl]
        by_cases hr : (N : Int) - 1 ≥
            ((splitChar fieldSep ((line.drop 3).drop 1)).length : Int)
        · rw [if_pos (Or.inr hr)]
          rw [List.getD_eq_default]
          omega
        · rw [if_neg]
          · rw [extractComponentValue_none]
            congr 1
            omega
          · push_neg
            constructor
            · omega
            · omega
      · simp only [hs, Bool.false_eq_true, if_false]
        by_cases hr : (N : Int) - 1 ≥ ((splitChar fieldSep (line.drop 3)).length : Int)
        · rw [if_pos (Or.inr hr)]
          rw [List.getD_eq_default]
          omega
        · rw [if_neg]
          · rw [extractComponentValue_none]
            congr 1
            omega
          · push_neg
            constructor
            · omega
            · omega

/-- Witness for C2 at concrete inputs.  Segment side: an `MSH` segment
where field 1 is `|`, field 2 is the encoding block, field 3 is
`fields[1]` and field 99 is empty; and a `PID` segment where field 2
is `fields[1]`.  Line side: on the raw line `MSH|^~\&|A|B` field 2 is
the encoding block and field 3 is `A`; on the raw line `PID|x|y`
field 2 is `y`. -/
theorem c2_value_resolver_witness :
    extractValueFromSegment mshExampleSeg 1 none none '^' '&' = S "|" ∧
    extractValueFromSegment mshExampleSeg 2 none none '^' '&' = S "^~\\&" ∧
    extractValueFromSegment mshExampleSeg 3 none none '^' '&' = S "A" ∧
    extractValueFromSegment mshExampleSeg 99 none none '^' '&' = S "" ∧
    extractValueFromSegment pidExampleSeg 2 none none '^' '&' = S "p2" ∧
    extractValueFromLine (S "MSH|^~\\&|A|B") (S "MSH") 2 none none '|' '^' '&' =
      S "^~\\&" ∧
    extractValueFromLine (S "MSH|^~\\&|A|B") (S "MSH") 3 none none '|' '^' '&' =
      S "A" ∧
    extractValueFromLine (S "PID|x|y") (S "PID") 2 none none '|' '^' '&' =
      S "y" := by
  have hm := (c2_value_resolver_field_indexing.1 mshExampleSeg '^' '&').1 (by decide)
  have hp := (c2_value_resolver_field_indexing.1 pidExampleSeg '^' '&').2 (by decide)
  have hlm := (c2_value_resolver_field_indexing.2 (S "MSH|^~\\&|A|B") (S "MSH")
    '|' '^' '&').1 (by decide)
  have hlp := (c2_value_resolver_field_indexing.2 (S "PID|x|y") (S "PID")
    '|' '^' '&').2 (by decide)
  refine ⟨hm.1, ?_, ?_, ?_, ?_, ?_, ?_, ?_⟩
  · rw [hm.2.1]; decide
  · have h := hm.2.2 3 (by norm_num)
    norm_num at h
    rw [h]; decide
  · have h := hm.2.2 99 (by norm_num)
    norm_num at h
    rw [h]; decide
  · have h := hp 2 (by norm_num)
    norm_num at h
    rw [h]; decide
  · rw [hlm.2.1]; decide
  · have h := hlm.2.2 3 (by norm_num)
    norm_num at h
    rw [h]; decide
  · have h := hlp 2 (by norm_num)
    norm_num at h
    rw [h]; decide

/-- C5: when a message has no segment of the condition's addressed
kind, `messageMatchesSingleFilter` returns `false` for the positive
operators `=`, `contains`, `exists` and `true` for the negation-shaped
operators `!=`, `!contains`, `!exists`. -/
theorem c5_missing_segment_operator_defaults :
    ∀ (msgSegs : List Segment) (f : ParsedFilter) (cs ss : Char) (parsed : FieldRef),
      parseFieldReference f.fieldRef = some parsed →
      (∀ s ∈ msgSegs, s.segmentId ≠ parsed.segment) →
      ((f.operator = S "=" ∨ f.operator = S "contains" ∨ f.operator = S "exists") →
        messageMatchesSingleFilter msgSegs f cs ss = false) ∧
      ((f.operator = S "!=" ∨ f.operator = S "!contains" ∨ f.operator = S "!exists") →
        messageMatchesSingleFilter msgSegs f cs ss = true) := by
  intro msgSegs f cs ss parsed hp habs
  have hfind : msgSegs.find? (fun s => decide (s.segmentId = parsed.segment)) = none := by
    rw [List.find?_eq_none]
    intro s hs
    simpa using habs s hs
  have key : messageMatchesSingleFilter msgSegs f cs ss =
      decide (f.operator = S "!=" ∨ f.operator = S "!contains" ∨
        f.operator = S "!exists") := by
    unfold messageMatchesSingleFilter
    split
    · simp_all
    · rename_i p heq
      rw [hp] at heq
      injection heq with heq
      subst heq
      split
      · rfl
      · rename_i seg hseg
        rw [hfind] at hseg
        cases hseg
  rw [key]
  constructor
  · rintro (hop | hop | hop) <;> rw [hop] <;> decide
  · rintro (hop | hop | hop) <;> rw [hop] <;> decide

/-- Witness for C5: a message holding only a `PID` segment, queried by
a condition addressing `PV1`: `=`/`contains`/`exists` give `false`,
`!=`/`!contains`/`!exists` give `true`. -/
theorem c5_missing_segment_witness :
    messageMatchesSingleFilter [pidExampleSeg]
      { fieldRef := S "PV1.2", operator := S "=", value := S "E" } '^' '&' = false ∧
    messageMatchesSingleFilter [pidExampleSeg]
      { fieldRef := S "PV1.2", operator := S "exists", value := S "" } '^' '&' = false ∧
    messageMatchesSingleFilter [pidExampleSeg]
      { fieldRef := S "PV1.2", operator := S "!=", value := S "E" } '^' '&' = true ∧
    messageMatchesSingleFilter [pidExampleSeg]
      { fieldRef := S "PV1.2", operator := S "!exists", value := S "" } '^' '&' = true := by
  refine ⟨?_, ?_, ?_, ?_⟩
  · exact ((c5_missing_segment_operator_defaults [pidExampleSeg] _ '^' '&'
      { segment := S "PV1", field := 2 } (by decide) (by decide)).1 (Or.inl rfl))
  · exact ((c5_missing_segment_operator_defaults [pidExampleSeg] _ '^' '&'
      { segment := S "PV1", field := 2 } (by decide) (by decide)).1 (Or.inr (Or.inr rfl)))
  · exact ((c5_missing_segment_operator_defaults [pidExampleSeg] _ '^' '&'
      { segment := S "PV1", field := 2 } (by decide) (by decide)).2 (Or.inl rfl))
  · exact ((c5_missing_segment_operator_defaults [pidExampleSeg] _ '^' '&'
      { segment := S "PV1", field := 2 } (by decide) (by decide)).2 (Or.inr (Or.inr rfl)))

/-- C10: at the evaluation layer, broken filter input includes messages
instead of excluding them: a condition whose expression does not parse
evaluates to `true` for every message (`evalCondition`, the loop body of
`messageMatchesFilters`), and `evaluateCustomLogic` yields `true` both
when the substituted expression fails the character guard and when the
host evaluation of the substituted expression throws (modelled by
`jsFunctionEval` returning `none`: a SyntaxError at construction, or a
ReferenceError/TypeError raised while evaluating). -/
theorem c10_broken_filter_input_included :
    (∀ (msgSegs : List Segment) (cs ss : Char) (f : FilterCond),
      parseFilterExpression f.expression = none →
      evalCondition msgSegs cs ss f = true) ∧
    (∀ (expression : Str) (filterResults : List (Str × Bool)),
      guardOK (buildEvalExpr expression filterResults) = false ∨
        jsFunctionEval (buildEvalExpr expression filterResults) = none →
      evaluateCustomLogic expression filterResults = true) := by
  constructor
  · intro msgSegs cs ss f h
    unfold evalCondition
    rw [h]
  · intro expression filterResults h
    simp only [evaluateCustomLogic]
    rcases h with h | h
    · rw [h]
      simp
    · by_cases hg : guardOK (buildEvalExpr expression filterResults) = false
      · rw [hg]
        simp
      · rw [h]
        simp [hg]

/-- Witness for C10: the unparseable condition `garbage` is treated as
`true` on a concrete message; a custom expression whose substitution
contains unexpected characters (here `%`, failing the guard) evaluates
to `true`; and `F1 AND FAL` with `F1` true substitutes to `true && FAL`,
whose evaluation throws a ReferenceError on the undefined `FAL`, so the
result is again `true`. -/
theorem c10_broken_filter_input_witness :
    evalCondition [pidExampleSeg] '^' '&'
      { label := S "F1", expression := S "garbage" } = true ∧
    evaluateCustomLogic (S "F1 % F2") [(S "F1", true), (S "F2", false)] = true ∧
    evaluateCustomLogic (S "F1 AND FAL") [(S "F1", true)] = true := by
  refine ⟨?_, ?_, ?_⟩
  · exact c10_broken_filter_input_included.1 [pidExampleSeg] '^' '&'
      { label := S "F1", expression := S "garbage" } (by decide)
  · exact c10_broken_filter_input_included.2 (S "F1 % F2")
      [(S "F1", true), (S "F2", false)] (Or.inl (by decide))
  · exact c10_broken_filter_input_included.2 (S "F1 AND FAL")
      [(S "F1", true)] (Or.inr (by decide))

/-- C6: custom-logic validation runs before evaluation inside
`extractFieldValues`: when the filters themselves parse but
`validateCustomLogic` rejects the custom expression, the caller receives
the structured error `Invalid custom logic: <specific rule>` and the
outcome is the same for every content (no filtering/evaluation ever
contributes); in particular `F1 AND F9` with only `F1` declared fails
validation with a message naming `F9`. -/
theorem c6_validation_precedes_evaluation :
    (∀ (content fieldRef : Str) (cfg : FiltersConfig) (msg : Str),
      cfg.filters ≠ [] →
      (∀ f ∈ cfg.filters, (parseFilterExpression f.expression).isSome) →
      cfg.logic = S "custom" →
      jsTrim cfg.expression ≠ [] →
      validateCustomLogic cfg.expression (cfg.filters.map (fun f => f.label)) =
        { valid := false, error := msg } →
      (jsTrim fieldRef = [] ∨ (parseFieldReference fieldRef).isSome) →
      extractFieldValues content fieldRef (some cfg) =
        .error (S "Invalid custom logic: " ++ msg)) ∧
    validateCustomLogic (S "F1 AND F9") [S "F1"] =
      { valid := false,
        error := S "Unknown filter label(s): F9. Available labels: F1" } := by
  constructor
  · intro content fieldRef cfg msg hne hparse hlogic htrim hval haddr
    have hfo : ¬ ((¬ jsTrim fieldRef = []) ∧
        (if jsTrim fieldRef = [] then none else parseFieldReference fieldRef) = none) := by
      rcases haddr with h | h
      · simp [h]
      · intro hc
        rcases hc with ⟨hc1, hc2⟩
        rw [if_neg hc1] at hc2
        rw [hc2] at h
        simp at h
    have hinv : ((cfg.filters.filter
        (fun f => parseFilterExpression f.expression = none)).map
          (fun f => f.label)) = [] := by
      rw [List.map_eq_nil_iff]
      rw [List.filter_eq_nil_iff]
      intro f hf
      have := hparse f hf
      simp only [decide_eq_true_eq]
      intro hc
      rw [hc] at this
      simp at this
    simp only [extractFieldValues]
    rw [if_neg hfo, if_pos hne, hinv]
    rw [if_neg (by simp : ¬ (([] : List Str) ≠ []))]
    rw [if_neg (fun hc => htrim hc.2)]
    rw [hval]
    rw [if_pos ⟨hlogic, rfl⟩]
  · decide

/-- The concrete FilterSet used by the C6 witness: one valid condition
labelled `F1`, custom logic `F1 AND F9` referencing the undeclared `F9`. -/
def c6ExampleCfg : FiltersConfig :=
  { filters := [{ label := S "F1", expression := S "PID.1 exists" }],
    logic := S "custom", expression := S "F1 AND F9" }

/-- Witness for C6: on a concrete content, the run with the `F1 AND F9`
custom logic stops with the structured unknown-label error naming `F9`. -/
theorem c6_validation_precedes_evaluation_witness :
    c6ExampleCfg.filters ≠ [] ∧
    (∀ f ∈ c6ExampleCfg.filters, (parseFilterExpression f.expression).isSome) ∧
    extractFieldValues (S "MSH|^~\\&|A") (S "") (some c6ExampleCfg) =
      .error (S "Invalid custom logic: Unknown filter label(s): F9. Available labels: F1") := by
  refine ⟨by decide, by decide, ?_⟩
  exact c6_validation_precedes_evaluation.1 (S "MSH|^~\\&|A") (S "") c6ExampleCfg
    (S "Unknown filter label(s): F9. Available labels: F1")
    (by decide) (by decide) (by decide) (by decide) (by decide) (Or.inl (by decide))

/-- With valid filters the assembled result's export text is the
`exportContent` of the filtered messages. -/
theorem exportOf_extractAssemble_true (fo : Bool) (p : Option FieldRef) (t : Nat)
    (fm : List Message) (d : Str) (c : Option FiltersConfig) :
    exportOf (extractAssemble fo p t true fm d c) = exportContent fm := by
  simp [extractAssemble, exportOf]

/-- Under valid filters, the export text of `extractFieldValues` is the
filtered messages rejoined segment by segment with `\r` and `\r\r\n`. -/
theorem exportOf_with_valid_filters :
    ∀ (content fieldRef : Str) (cfg : FiltersConfig),
      cfg.filters ≠ [] →
      (∀ f ∈ cfg.filters, (parseFilterExpression f.expression).isSome) →
      (cfg.logic = S "custom" →
        jsTrim cfg.expression ≠ [] ∧
        (validateCustomLogic cfg.expression
          (cfg.filters.map (fun f => f.label))).valid = true) →
      (jsTrim fieldRef = [] ∨ (parseFieldReference fieldRef).isSome) →
      exportOf (extractFieldValues content fieldRef (some cfg)) =
        joinStr (S "\r\r\n")
          (((parseMessagesForFiltering content).filter (fun msg =>
              messageMatchesFilters msg.segments (some cfg)
                msg.componentSeparator msg.subcomponentSeparator)).map
            (fun m => joinChar '\r' (m.segments.map (fun seg =>
              seg.segmentId ++ [seg.fieldSeparator] ++
                joinChar seg.fieldSeparator seg.fields)))) := by
  intro content fieldRef cfg hne hparse hcustom haddr
  have hfo : ¬ ((¬ jsTrim fieldRef = []) ∧
      (if jsTrim fieldRef = [] then none else parseFieldReference fieldRef) = none) := by
    rcases haddr with h | h
    · simp [h]
    · intro hc
      rcases hc with ⟨hc1, hc2⟩
      rw [if_neg hc1] at hc2
      rw [hc2] at h
      simp at h
  have hinv : ((cfg.filters.filter
      (fun f => parseFilterExpression f.expression = none)).map
        (fun f => f.label)) = [] := by
    rw [List.map_eq_nil_iff]
    rw [List.filter_eq_nil_iff]
    intro f hf
    have := hparse f hf
    simp only [decide_eq_true_eq]
    intro hc
    rw [hc] at this
    simp at this
  simp only [extractFieldValues]
  rw [if_neg hfo, if_pos hne, hinv]
  rw [if_neg (by simp : ¬ (([] : List Str) ≠ []))]
  rw [if_neg (fun hc => (hcustom hc.1).1 hc.2)]
  rw [if_neg (fun hc => by simp [(hcustom hc.1).2] at hc)]
  rw [exportOf_extractAssemble_true]
  unfold exportContent segToLine
  rfl

/-- C7: the filtered-message export text joins each message's segments
with the single terminator `\r`, each segment rejoined from its kind
label and its fields using that segment's stored field separator, and
joins consecutive messages with `\r\r\n`, exactly. -/
theorem c7_export_format :
    ∀ (content fieldRef : Str) (cfg : FiltersConfig),
      cfg.filters ≠ [] →
      (∀ f ∈ cfg.filters, (parseFilterExpression f.expression).isSome) →
      (cfg.logic = S "custom" →
        jsTrim cfg.expression ≠ [] ∧
        (validateCustomLogic cfg.expression
          (cfg.filters.map (fun f => f.label))).valid = true) →
      (jsTrim fieldRef = [] ∨ (parseFieldReference fieldRef).isSome) →
      exportOf (extractFieldValues content fieldRef (some cfg)) =
        joinStr (S "\r\r\n")
          (((parseMessagesForFiltering content).filter (fun msg =>
              messageMatchesFilters msg.segments (some cfg)
                msg.componentSeparator msg.subcomponentSeparator)).map
            (fun m => joinChar '\r' (m.segments.map (fun seg =>
              seg.segmentId ++ [seg.fieldSeparator] ++
                joinChar seg.fieldSeparator seg.fields)))) :=
  exportOf_with_valid_filters

/-- The concrete FilterSet used by the C7 witness. -/
def c7ExampleCfg : FiltersConfig :=
  { filters := [{ label := S "F1", expression := S "PID.5.1 = DOE" }],
    logic := S "single", expression := [] }

/-- Witness for C7 on the spec's two-message example filtered by
`PID.5.1 = DOE`: the theorem's hypotheses hold and the export equals the
claimed join of the rejoined segments. -/
theorem c7_export_format_witness :
    c7ExampleCfg.filters ≠ [] ∧
    exportOf (extractFieldValues
        (S "MSH|^~\\&|A\rPID|||ID1^^^SYS||DOE^JOHN\rMSH|^~\\&|A\rPID|||ID2^^^SYS||SMITH^JANE")
        (S "") (some c7ExampleCfg)) =
      joinStr (S "\r\r\n")
        (((parseMessagesForFiltering
            (S "MSH|^~\\&|A\rPID|||ID1^^^SYS||DOE^JOHN\rMSH|^~\\&|A\rPID|||ID2^^^SYS||SMITH^JANE")).filter
          (fun msg => messageMatchesFilters msg.segments (some c7ExampleCfg)
            msg.componentSeparator msg.subcomponentSeparator)).map
          (fun m => joinChar '\r' (m.segments.map (fun seg =>
            seg.segmentId ++ [seg.fieldSeparator] ++
              joinChar seg.fieldSeparator seg.fields)))) := by
  refine ⟨by decide, ?_⟩
  exact c7_export_format
    (S "MSH|^~\\&|A\rPID|||ID1^^^SYS||DOE^JOHN\rMSH|^~\\&|A\rPID|||ID2^^^SYS||SMITH^JANE")
    (S "") c7ExampleCfg (by decide) (by decide)
    (fun hc => absurd hc (by decide)) (Or.inl (by decide))

/-- Folding label-keyed upserts over conditions with pairwise distinct
labels appends one entry per condition, in order. -/
theorem foldl_objUpsert_eq_map (filters : List FilterCond)
    (acc : List (Str × Bool)) (ev : FilterCond → Bool)
    (hdis : ∀ p ∈ acc, ∀ f ∈ filters, p.1 ≠ f.label)
    (hnd : (filters.map (fun f => f.label)).Nodup) :
    filters.foldl (fun m f => objUpsert m f.label (ev f)) acc =
      acc ++ filters.map (fun f => (f.label, ev f)) := by
  induction filters generalizing acc with
  | nil => simp
  | cons f rest ih =>
    have hup : objUpsert acc f.label (ev f) = acc ++ [(f.label, ev f)] := by
      unfold objUpsert
      rw [if_neg]
      simp only [List.any_eq_true, not_exists, not_and]
      intro p hp
      simpa using hdis p hp f (List.mem_cons_self f rest)
    simp only [List.foldl_cons, hup]
    rw [ih (acc ++ [(f.label, ev f)])]
    · simp
    · intro p hp g hg
      rcases List.mem_append.mp hp with h | h
      · exact hdis p h g (List.mem_cons_of_mem f hg)
      · simp only [List.mem_singleton] at h
        subst h
        simp only [List.map_cons, List.nodup_cons] at hnd
        intro hc
        apply hnd.1
        have : f.label = g.label := hc
        rw [this]
        exact List.mem_map_of_mem (fun f => f.label) hg
    · simp only [List.map_cons, List.nodup_cons] at hnd
      exact hnd.2

/-- With pairwise distinct labels, the `filterResults` object holds one
entry per condition, carrying that condition's evaluation. -/
theorem buildFilterResults_eq_map (msgSegs : List Segment)
    (filters : List FilterCond) (cs ss : Char)
    (hnd : (filters.map (fun f => f.label)).Nodup) :
    buildFilterResults msgSegs filters cs ss =
      filters.map (fun f => (f.label, evalCondition msgSegs cs ss f)) := by
  unfold buildFilterResults
  rw [foldl_objUpsert_eq_map filters [] (evalCondition msgSegs cs ss) (by simp) hnd]
  simp

/-- Boolean `all` over a mapped list. -/
theorem all_map_self {α : Type} (l : List α) (f : α → Bool) :
    (l.map f).all (fun r => r) = l.all f := by
  induction l with
  | nil => rfl
  | cons a t ih => simp [ih]

/-- Boolean `any` over a mapped list. -/
theorem any_map_self {α : Type} (l : List α) (f : α → Bool) :
    (l.map f).any (fun r => r) = l.any f := by
  induction l with
  | nil => rfl
  | cons a t ih => simp [ih]

/-- C4: for a FilterSet of 2–5 conditions with distinct labels,
evaluation in `AND` mode is the conjunction of the individually
evaluated conditions and evaluation in `OR` mode is their disjunction
(`List.all` / `List.any` of `evalCondition`, which is order-stable under
permutation of the condition list). -/
theorem c4_and_or_conjunction_disjunction :
    ∀ (msgSegs : List Segment) (cfg : FiltersConfig) (cs ss : Char),
      2 ≤ cfg.filters.length → cfg.filters.length ≤ 5 →
      (cfg.filters.map (fun f => f.label)).Nodup →
      (cfg.logic = S "AND" →
        messageMatchesFilters msgSegs (some cfg) cs ss =
          cfg.filters.all (fun f => evalCondition msgSegs cs ss f)) ∧
      (cfg.logic = S "OR" →
        messageMatchesFilters msgSegs (some cfg) cs ss =
          cfg.filters.any (fun f => evalCondition msgSegs cs ss f)) := by
  intro msgSegs cfg cs ss h2 h5 hnd
  have hne : cfg.filters ≠ [] := by
    intro h
    rw [h] at h2
    simp at h2
  have hlen1 : ¬ cfg.filters.length = 1 := by omega
  have hbuild := buildFilterResults_eq_map msgSegs cfg.filters cs ss hnd
  constructor
  · intro hAND
    simp only [messageMatchesFilters]
    rw [if_neg hne]
    rw [if_neg (by
      rw [hAND]
      rintro (h | h)
      · exact absurd h (by decide)
      · exact hlen1 h)]
    rw [if_pos hAND]
    rw [hbuild]
    simp only [List.map_map, List.all_map, Function.comp_def, decide_eq_true_eq]
    rw [← all_map_self cfg.filters (fun f => evalCondition msgSegs cs ss f)]
    simp [Function.comp_def]
  · intro hOR
    simp only [messageMatchesFilters]
    rw [if_neg hne]
    rw [if_neg (by
      rw [hOR]
      rintro (h | h)
      · exact absurd h (by decide)
      · exact hlen1 h)]
    rw [if_neg (by
      rw [hOR]
      intro h
      exact absurd h (by decide))]
    rw [if_pos hOR]
    rw [hbuild]
    simp only [List.map_map, List.any_map, Function.comp_def, decide_eq_true_eq]
    rw [← any_map_self cfg.filters (fun f => evalCondition msgSegs cs ss f)]
    simp [Function.comp_def]

/-- The two-condition FilterSet (AND mode) used by the C4 witness. -/
def c4AndCfg : FiltersConfig :=
  { filters := [{ label := S "F1", expression := S "PID.2 = p2" },
                { label := S "F2", expression := S "PID.3 = zz" }],
    logic := S "AND", expression := [] }

/-- The two-condition FilterSet (OR mode) used by the C4 witness. -/
def c4OrCfg : FiltersConfig :=
  { filters := [{ label := S "F1", expression := S "PID.2 = p2" },
                { label := S "F2", expression := S "PID.3 = zz" }],
    logic := S "OR", expression := [] }

/-- Witness for C4 on a concrete message where F1 holds and F2 fails:
AND mode gives the conjunction (false), OR mode gives the disjunction
(true). -/
theorem c4_and_or_witness :
    2 ≤ c4AndCfg.filters.length ∧
    (c4AndCfg.filters.map (fun f => f.label)).Nodup ∧
    messageMatchesFilters [pidExampleSeg] (some c4AndCfg) '^' '&' =
      c4AndCfg.filters.all (fun f => evalCondition [pidExampleSeg] '^' '&' f) ∧
    messageMatchesFilters [pidExampleSeg] (some c4OrCfg) '^' '&' =
      c4OrCfg.filters.any (fun f => evalCondition [pidExampleSeg] '^' '&' f) := by
  refine ⟨by decide, by decide, ?_, ?_⟩
  · exact (c4_and_or_conjunction_disjunction [pidExampleSeg] c4AndCfg '^' '&'
      (by decide) (by decide) (by decide)).1 rfl
  · exact (c4_and_or_conjunction_disjunction [pidExampleSeg] c4OrCfg '^' '&'
      (by decide) (by decide) (by decide)).2 rfl

/-- One message's contribution to the extraction list: one extraction
per matching segment, or a single empty extraction when no segment of
the addressed kind is present. -/
def msgContribution (parsed : FieldRef) (idx : Nat) (msg : Message) : List (Nat × Str) :=
  let matchingSegments := msg.segments.filter (fun s => s.segmentId = parsed.segment)
  if matchingSegments = [] then [(idx, ([] : Str))]
  else matchingSegments.map (fun seg =>
    (idx, extractValueFromSegment seg parsed.field parsed.component parsed.subcomponent
      msg.componentSeparator msg.subcomponentSeparator))

/-- `extractionResults` is the indexed concatenation of the per-message
contributions. -/
theorem extractionResults_eq_flatMap (parsed : FieldRef) (msgs : List Message) :
    extractionResults parsed msgs =
      (msgs.enum).flatMap (fun p => msgContribution parsed p.1 p.2) := rfl

/-- Every extraction in a message's contribution carries that message's
index. -/
theorem msgContribution_fst (parsed : FieldRef) (idx : Nat) (msg : Message) :
    ∀ q ∈ msgContribution parsed idx msg, q.1 = idx := by
  intro q hq
  simp only [msgContribution] at hq
  split at hq
  · simp only [List.mem_singleton] at hq
    rw [hq]
  · rcases List.mem_map.mp hq with ⟨seg, _, hqe⟩
    rw [← hqe]

/-- `filter` distributes over `flatMap`. -/
theorem filter_flatMap_local {α β : Type} (l : List α) (g : α → List β) (p : β → Bool) :
    (l.flatMap g).filter p = l.flatMap (fun a => (g a).filter p) := by
  induction l with
  | nil => rfl
  | cons a t ih => simp [List.flatMap_cons, List.filter_append, ih]

/-- Selecting one message index from the flattened enumerated
contributions yields exactly that message's contribution. -/
theorem flatMap_enumFrom_filter (msgs : List Message)
    (g : Nat → Message → List (Nat × Str))
    (hg : ∀ j m q, q ∈ g j m → q.1 = j) :
    ∀ (n idx : Nat) (h : idx < msgs.length),
      (((msgs.enumFrom n).flatMap (fun p => g p.1 p.2)).filter
          (fun p => p.1 = n + idx)) = g (n + idx) (msgs.get ⟨idx, h⟩) := by
  induction msgs with
  | nil =>
    intro n idx h
    simp at h
  | cons m rest ih =>
    intro n idx h
    rw [List.enumFrom_cons]
    rw [List.flatMap_cons, List.filter_append]
    cases idx with
    | zero =>
      have h1 : (g n m).filter (fun p => p.1 = n + 0) = g n m := by
        rw [List.filter_eq_self]
        intro q hq
        simp [hg n m q hq]
      have h2 : ((rest.enumFrom (n + 1)).flatMap (fun p => g p.1 p.2)).filter
          (fun p => p.1 = n + 0) = [] := by
        rw [List.filter_eq_nil_iff]
        intro q hq
        rcases List.mem_flatMap.mp hq with ⟨pr, hpr, hqin⟩
        have hfst := hg pr.1 pr.2 q hqin
        have hge : n + 1 ≤ pr.1 := (List.le_fst_of_mem_enumFrom hpr)
        simp only [decide_eq_true_eq]
        omega
      rw [h1, h2, List.append_nil]
      rfl
    | succ idx' =>
      have h1 : (g n m).filter (fun p => p.1 = n + (idx' + 1)) = [] := by
        rw [List.filter_eq_nil_iff]
        intro q hq
        have := hg n m q hq
        simp only [decide_eq_true_eq]
        omega
      have h2 := ih (n + 1) idx' (by simpa using Nat.lt_of_succ_lt_succ h)
      rw [h1, List.nil_append]
      have harith : n + 1 + idx' = n + (idx' + 1) := by omega
      rw [harith] at h2
      rw [h2]
      rfl

/-- Projection of the extraction list (errors carry none). -/
def resultsOf : ExtractResult → List (Nat × Str)
  | .error _ => []
  | .ok r => r.results

/-- Projection of `messagesWithValue` from a full statistics result. -/
def statsWithValue : StatsResult → Nat
  | .full r => r.messagesWithValue
  | _ => 0

/-- Projection of `messagesWithoutValue` from a full statistics result. -/
def statsWithoutValue : StatsResult → Int
  | .full r => r.messagesWithoutValue
  | _ => 0

/-- Projection of the frequency table from a full statistics result. -/
def statsDistinct : StatsResult → List (Str × Nat)
  | .full r => r.distinctValues
  | _ => []

/-- The spec's two-message sample content. -/
def twoMsgContent : Str :=
  S "MSH|^~\\&|A\rPID|||ID1^^^SYS||DOE^JOHN\rMSH|^~\\&|A\rPID|||ID2^^^SYS||SMITH^JANE"

/-- C8: with an address given, the extractions attributed to a message
are exactly one per segment of the addressed kind, or a single empty
extraction when the message has no such segment (`msgContribution`);
and on the spec's two-message sample, querying the out-of-range address
`PID.99` yields two empty extractions, `messagesWithValue = 0`,
`messagesWithoutValue = 2`, and the empty-value bucket with count 2. -/
theorem c8_per_segment_extraction :
    (∀ (parsed : FieldRef) (msgs : List Message) (idx : Nat) (h : idx < msgs.length),
      (extractionResults parsed msgs).filter (fun p => p.1 = idx) =
        msgContribution parsed idx (msgs.get ⟨idx, h⟩)) ∧
    resultsOf (extractFieldValues twoMsgContent (S "PID.99") none) =
      [(0, S ""), (1, S "")] ∧
    statsWithValue (generateStatistics
      (extractFieldValues twoMsgContent (S "PID.99") none)) = 0 ∧
    statsWithoutValue (generateStatistics
      (extractFieldValues twoMsgContent (S "PID.99") none)) = 2 ∧
    statsDistinct (generateStatistics
      (extractFieldValues twoMsgContent (S "PID.99") none)) = [(S "(empty)", 2)] := by
  refine ⟨?_, by decide, by decide, by decide, by decide⟩
  intro parsed msgs idx h
  rw [extractionResults_eq_flatMap]
  rw [show msgs.enum = msgs.enumFrom 0 from rfl]
  have h0 := flatMap_enumFrom_filter msgs (fun j m => msgContribution parsed j m)
    (fun j m q hq => msgContribution_fst parsed j m q hq) 0 idx h
  simpa using h0

/-- Witness for C8's quantified part: on the parsed two-message sample,
message 0's extractions for `PID.5.1` are exactly its single PID
segment's value. -/
theorem c8_per_segment_extraction_witness :
    0 < (parseMessagesForFiltering twoMsgContent).length ∧
    (extractionResults { segment := S "PID", field := 5, component := some 1 }
        (parseMessagesForFiltering twoMsgContent)).filter (fun p => p.1 = 0) =
      msgContribution { segment := S "PID", field := 5, component := some 1 } 0
        ((parseMessagesForFiltering twoMsgContent).get ⟨0, by decide⟩) := by
  exact ⟨by decide, c8_per_segment_extraction.1
    { segment := S "PID", field := 5, component := some 1 }
    (parseMessagesForFiltering twoMsgContent) 0 (by decide)⟩

/-- The dot-separated parts a reference is parsed from: trim, uppercase,
split on `.`. -/
def refParts (s : Str) : List Str := splitChar '.' (toUpperStr (jsTrim s))

/-- The part-list core of `parseFieldReference` (identical body over an
abstract parts list; `parseFieldReference_eq_core` ties it to the
source embedding definitionally). -/
def parseCore (parts : List Str) : Option FieldRef :=
  if parts.length < 2 ∨ parts.length > 4 then none
  else
    let segment := parts.getD 0 []
    match parseIntJS (parts.getD 1 []) with
    | none => none
    | some field =>
      if segment = [] ∨ field < 1 then none
      else
        if parts.length = 2 then some { segment := segment, field := field }
        else
          match parseIntJS (parts.getD 2 []) with
          | none => none
          | some component =>
            if component < 1 then none
            else
              if parts.length = 3 then
                some { segment := segment, field := field, component := some component }
              else
                match parseIntJS (parts.getD 3 []) with
                | none => none
                | some subcomponent =>
                  if subcomponent < 1 then none
                  else
                    some { segment := segment, field := field,
                           component := some component,
                           subcomponent := some subcomponent }

/-- The Address Parser is the core applied to the split parts. -/
theorem parseFieldReference_eq_core (s : Str) :
    parseFieldReference s = parseCore (refParts s) := rfl

/-- The claim's strict reading of one numeric part: nonempty, all
digits, value at least 1. -/
def strictNumOK (p : Str) : Bool :=
  p ≠ [] ∧ p.all Char.isDigit ∧ 1 ≤ natOfDigits p

/-- A numeric part as the implementation accepts it: `parseInt` finds a
leading integer that is at least 1 (trailing characters ignored). -/
def lenientNumOK (p : Str) : Bool :=
  match parseIntJS p with
  | some k => 1 ≤ k
  | none => false

/-- The claim's grammar over the split parts of a reference string:
2–4 dot-separated parts, nonempty segment token, strictly numeric
positive parts. -/
def strictGrammarB (s : Str) : Bool :=
  let parts := refParts s
  2 ≤ parts.length ∧ parts.length ≤ 4 ∧ parts.getD 0 [] ≠ [] ∧
    (parts.drop 1).all strictNumOK

/-- The grammar the implementation actually decides: as the claim's,
but with `parseInt` leading-integer semantics on the numeric parts. -/
def lenientGrammarB (s : Str) : Bool :=
  let parts := refParts s
  2 ≤ parts.length ∧ parts.length ≤ 4 ∧ parts.getD 0 [] ≠ [] ∧
    (parts.drop 1).all lenientNumOK

/-- The structured address built from a part list (used to state what a
successful parse returns). -/
def refOfParts (parts : List Str) : FieldRef :=
  { segment := parts.getD 0 [],
    field := (parseIntJS (parts.getD 1 [])).getD 0,
    component :=
      if 3 ≤ parts.length then some ((parseIntJS (parts.getD 2 [])).getD 0) else none,
    subcomponent :=
      if parts.length = 4 then some ((parseIntJS (parts.getD 3 [])).getD 0) else none }

/-- C3 counterexample: `PID.5X` violates the claim's grammar (its
numeric part is not numeric) yet the Address Parser accepts it,
because `parseInt` reads the leading `5` and ignores the `X`; so the
claimed no-match on every grammar-violating string is false. -/
theorem c3_counterexample_lenient_parseInt :
    parseFieldReference (S "PID.5X") = some { segment := S "PID", field := 5 } ∧
    strictGrammarB (S "PID.5X") = false := by decide

/-- A decimal digit is not JavaScript whitespace. -/
theorem digit_not_ws (c : Char) (hc : c.isDigit = true) : isJsWs c = false := by
  by_contra hw
  rw [Bool.not_eq_false] at hw
  simp only [isJsWs, decide_eq_true_eq] at hw
  rcases hw with h|h|h|h|h|h|h|h|h|h <;> subst h <;> exact absurd hc (by decide)

/-- On a strictly numeric part, `parseInt` returns exactly its digit
value. -/
theorem strictNum_parseInt (p : Str) (h : strictNumOK p = true) :
    parseIntJS p = some ((natOfDigits p : Int)) ∧ 1 ≤ ((natOfDigits p : Int)) := by
  simp only [strictNumOK, Bool.and_eq_true, decide_eq_true_eq, ne_eq] at h
  obtain ⟨hne, hall, hge⟩ := h
  rw [List.all_eq_true] at hall
  have hdrop : p.dropWhile isJsWs = p := by
    cases p with
    | nil => rfl
    | cons d rest =>
      rw [List.dropWhile_cons]
      rw [if_neg]
      rw [digit_not_ws d (hall d (List.mem_cons_self d rest))]
      simp
  have htake : p.takeWhile Char.isDigit = p := by
    rw [List.takeWhile_eq_self_iff]
    exact hall
  refine ⟨?_, by exact_mod_cast hge⟩
  simp only [parseIntJS]
  rw [hdrop]
  split
  · exact absurd (hall '-' (List.mem_cons_self _ _)) (by decide)
  · exact absurd (hall '+' (List.mem_cons_self _ _)) (by decide)
  · simp only [leadDigits, htake]
    rw [if_neg hne]
    rfl

/-- A strictly numeric part is accepted by the implementation's
`parseInt`-based check. -/
theorem strict_imp_lenientNum (p : Str) (h : strictNumOK p = true) :
    lenientNumOK p = true := by
  obtain ⟨h1, h2⟩ := strictNum_parseInt p h
  unfold lenientNumOK
  rw [h1]
  simpa using h2

/-- Successful parses of the core are characterized by the lenient
(`parseInt`-based) grammar over the parts. -/
theorem parseCore_isSome_iff (parts : List Str) :
    (parseCore parts).isSome = true ↔
      (2 ≤ parts.length ∧ parts.length ≤ 4 ∧ parts.getD 0 [] ≠ [] ∧
        (parts.drop 1).all lenientNumOK = true) := by
  rcases parts with _ | ⟨p0, parts⟩
  · simp [parseCore]
  rcases parts with _ | ⟨p1, parts⟩
  · simp [parseCore]
  rcases parts with _ | ⟨p2, parts⟩
  · simp only [parseCore, List.length_cons, List.length_nil]
    norm_num
    rcases h1 : parseIntJS p1 with _ | k
    · simp [lenientNumOK, h1]
    · simp only [lenientNumOK, h1]
      by_cases hp0 : p0 = []
      · simp [hp0]
      · by_cases hk : k < 1
        · simp only [decide_eq_true_eq]
          rw [if_pos (Or.inr hk)]
          simp only [Option.isSome_none, Bool.false_eq_true, false_iff, not_and]
          intro _
          omega
        · simp only [decide_eq_true_eq]
          rw [if_neg (by rintro (h | h); exact hp0 h; exact hk h)]
          simp only [Option.isSome_some, true_iff]
          exact ⟨hp0, by omega⟩
  rcases parts with _ | ⟨p3, parts⟩
  · simp only [parseCore, List.length_cons, List.length_nil]
    norm_num
    rcases h1 : parseIntJS p1 with _ | k
    · simp [lenientNumOK, h1]
    · simp only [lenientNumOK, h1]
      by_cases hp0 : p0 = []
      · simp [hp0]
      · by_cases hk : k < 1
        · simp only [decide_eq_true_eq]
          rw [if_pos (Or.inr hk)]
          simp only [Option.isSome_none, Bool.false_eq_true, false_iff, not_and]
          intro _ _
          omega
        · simp only [decide_eq_true_eq]
          rw [if_neg (by rintro (h | h); exact hp0 h; exact hk h)]
          rcases h2 : parseIntJS p2 with _ | c
          · simp
          · dsimp only
            by_cases hc : c < 1
            · rw [if_pos hc]
              simp <;> omega
            · rw [if_neg hc]
              simp [hp0] <;> omega
  rcases parts with _ | ⟨p4, parts⟩
  · simp only [parseCore, List.length_cons, List.length_nil]
    norm_num
    rcases h1 : parseIntJS p1 with _ | k
    · simp [lenientNumOK, h1]
    · simp only [lenientNumOK, h1]
      by_cases hp0 : p0 = []
      · simp [hp0]
      · by_cases hk : k < 1
        · simp only [decide_eq_true_eq]
          rw [if_pos (Or.inr hk)]
          simp only [Option.isSome_none, Bool.false_eq_true, false_iff, not_and]
          intro _ _
          omega
        · simp only [decide_eq_true_eq]
          rw [if_neg (by rintro (h | h); exact hp0 h; exact hk h)]
          rcases h2 : parseIntJS p2 with _ | c
          · simp
          · dsimp only
            by_cases hc : c < 1
            · rw [if_pos hc]
              simp <;> omega
            · rw [if_neg hc]
              rcases h3 : parseIntJS p3 with _ | sc
              · simp <;> omega
              · dsimp only
                by_cases hsc : sc < 1
                · rw [if_pos hsc]
                  simp <;> omega
                · rw [if_neg hsc]
                  simp [hp0] <;> omega
  · have hlen : (p0 :: p1 :: p2 :: p3 :: p4 :: parts).length > 4 := by
      simp only [List.length_cons]
      omega
    simp only [parseCore]
    rw [if_pos (Or.inr hlen)]
    simp only [Option.isSome_none, Bool.false_eq_true, false_iff, not_and]
    intro _ h4
    exfalso
    simp only [List.length_cons] at h4
    omega

/-- On lenient-grammar-conforming parts, the core parse returns exactly
the structured address built from the parts. -/
theorem parseCore_eq_refOfParts (parts : List Str)
    (h : 2 ≤ parts.length ∧ parts.length ≤ 4 ∧ parts.getD 0 [] ≠ [] ∧
      (parts.drop 1).all lenientNumOK = true) :
    parseCore parts = some (refOfParts parts) := by
  rcases parts with _ | ⟨p0, parts⟩
  · simp at h
  rcases parts with _ | ⟨p1, parts⟩
  · simp at h
  rcases parts with _ | ⟨p2, parts⟩
  · simp only [parseCore, refOfParts, List.getD_cons_zero, List.getD_cons_succ,
      List.length_cons, List.length_nil]
    norm_num
    norm_num at h
    rcases h1 : parseIntJS p1 with _ | k
    · simp only [lenientNumOK, h1] at h
      exact absurd h.2 (by decide)
    · simp only [lenientNumOK, h1, decide_eq_true_eq] at h
      obtain ⟨hp0, hk⟩ := h
      dsimp only
      rw [if_neg (by rintro (hh | hh); exact hp0 hh; omega)]
      rfl
  rcases parts with _ | ⟨p3, parts⟩
  · simp only [parseCore, refOfParts, List.getD_cons_zero, List.getD_cons_succ,
      List.length_cons, List.length_nil]
    norm_num
    norm_num at h
    rcases h1 : parseIntJS p1 with _ | k
    · simp only [lenientNumOK, h1] at h
      exact absurd h.2.1 (by decide)
    · rcases h2 : parseIntJS p2 with _ | c
      · simp only [lenientNumOK, h1, h2] at h
        exact absurd h.2.2 (by decide)
      · simp only [lenientNumOK, h1, h2, decide_eq_true_eq] at h
        obtain ⟨hp0, hk, hc⟩ := h
        dsimp only
        rw [if_neg (by rintro (hh | hh); exact hp0 hh; omega)]
        rw [if_neg (by omega)]
        rfl
  rcases parts with _ | ⟨p4, parts⟩
  · simp only [parseCore, refOfParts, List.getD_cons_zero, List.getD_cons_succ,
      List.length_cons, List.length_nil]
    norm_num
    norm_num at h
    rcases h1 : parseIntJS p1 with _ | k
    · simp only [lenientNumOK, h1] at h
      exact absurd h.2.1 (by decide)
    · rcases h2 : parseIntJS p3 with _ | sc
      · simp only [lenientNumOK, h1, h2] at h
        exact absurd h.2.2.2 (by decide)
      · rcases h3 : parseIntJS p2 with _ | c
        · simp only [lenientNumOK, h1, h2, h3] at h
          exact absurd h.2.2.1 (by decide)
        · simp only [lenientNumOK, h1, h2, h3, decide_eq_true_eq] at h
          obtain ⟨hp0, hk, hc, hsc⟩ := h
          dsimp only
          rw [if_neg (by rintro (hh | hh); exact hp0 hh; omega)]
          rw [if_neg (by omega)]
          rw [if_neg (by omega)]
          rfl
  · exfalso
    simp only [List.length_cons] at h
    omega

/-- C3 (amended): the Address Parser is a total function of the input
string (it is a Lean function, hence deterministic and never throwing),
and it accepts exactly the claim's grammar relaxed to `parseInt`
leading-integer semantics on the numeric parts: every string whose 2–4
dot-separated parts have a nonempty segment token and numeric parts
with a leading integer ≥ 1 parses to the structured address built from
those parts, and every other string returns no-match.  Strings matching
the claim's strict grammar (all-digit positive numeric parts) are
accepted as a special case. -/
theorem c3_parser_total_lenient_grammar :
    ∀ s : Str,
      ((parseFieldReference s).isSome = lenientGrammarB s) ∧
      (strictGrammarB s = true → lenientGrammarB s = true) ∧
      (lenientGrammarB s = true →
        parseFieldReference s = some (refOfParts (refParts s))) := by
  intro s
  have hiff := parseCore_isSome_iff (refParts s)
  have hlen : lenientGrammarB s = true ↔
      (2 ≤ (refParts s).length ∧ (refParts s).length ≤ 4 ∧
        (refParts s).getD 0 [] ≠ [] ∧
        ((refParts s).drop 1).all lenientNumOK = true) := by
    simp [lenientGrammarB]
  refine ⟨?_, ?_, ?_⟩
  · rw [parseFieldReference_eq_core, Bool.eq_iff_iff, hiff, hlen]
  · intro hst
    have hstrict : 2 ≤ (refParts s).length ∧ (refParts s).length ≤ 4 ∧
        (refParts s).getD 0 [] ≠ [] ∧
        ((refParts s).drop 1).all strictNumOK = true := by
      simpa [strictGrammarB] using hst
    rw [hlen]
    refine ⟨hstrict.1, hstrict.2.1, hstrict.2.2.1, ?_⟩
    rw [List.all_eq_true]
    intro p hp
    have := List.all_eq_true.mp hstrict.2.2.2 p hp
    exact strict_imp_lenientNum p this
  · intro hl
    rw [parseFieldReference_eq_core]
    exact parseCore_eq_refOfParts (refParts s) (hlen.mp hl)

/-- Witness for C3's amended theorem at `PID.5.1`: the strict grammar
holds, the lenient grammar holds, the parse succeeds and returns the
structured address. -/
theorem c3_parser_witness :
    strictGrammarB (S "PID.5.1") = true ∧
    lenientGrammarB (S "PID.5.1") = true ∧
    parseFieldReference (S "PID.5.1") = some (refOfParts (refParts (S "PID.5.1"))) := by
  refine ⟨by decide, (c3_parser_total_lenient_grammar (S "PID.5.1")).2.1 (by decide), ?_⟩
  exact (c3_parser_total_lenient_grammar (S "PID.5.1")).2.2
    ((c3_parser_total_lenient_grammar (S "PID.5.1")).2.1 (by decide))

/-- `splitChar` never returns the empty list. -/
theorem splitChar_ne_nil (sep : Char) (l : Str) : splitChar sep l ≠ [] := by
  cases l with
  | nil => simp [splitChar]
  | cons c cs =>
    simp only [splitChar]
    split
    · simp
    · split <;> simp

/-- Splitting then rejoining on the same separator is the identity. -/
theorem joinChar_splitChar (sep : Char) (l : Str) :
    joinChar sep (splitChar sep l) = l := by
  induction l with
  | nil => rfl
  | cons c cs ih =>
    simp only [splitChar]
    rcases hs : splitChar sep cs with _ | ⟨h, t⟩
    · exact absurd hs (splitChar_ne_nil sep cs)
    · have ih2 : joinChar sep (h :: t) = cs := by
        rw [← hs]
        exact ih
      dsimp only
      by_cases hc : c = sep
      · rw [if_pos hc]
        simp only [joinChar, List.nil_append]
        cases t with
        | nil =>
          simp only [joinChar] at ih2 ⊢
          rw [ih2, hc]
        | cons t0 ts =>
          rw [ih2, hc]
      · rw [if_neg hc]
        cases t with
        | nil =>
          simp only [joinChar] at ih2 ⊢
          rw [ih2]
        | cons t0 ts =>
          simp only [joinChar] at ih2 ⊢
          rw [List.cons_append, ih2]

/-- A separator-free string splits to the singleton chunk. -/
theorem splitChar_sepFree (sep : Char) (x : Str) (hx : ∀ c ∈ x, c ≠ sep) :
    splitChar sep x = [x] := by
  induction x with
  | nil => rfl
  | cons c cs ih =>
    simp only [splitChar]
    rw [ih (fun d hd => hx d (List.mem_cons_of_mem c hd))]
    dsimp only
    rw [if_neg (hx c (by simp))]

/-- Splitting a separator-free chunk followed by a separator peels off
that chunk. -/
theorem splitChar_append_sep (sep : Char) (x rest : Str)
    (hx : ∀ c ∈ x, c ≠ sep) :
    splitChar sep (x ++ sep :: rest) = x :: splitChar sep rest := by
  induction x with
  | nil =>
    simp only [List.nil_append, splitChar]
    rcases h : splitChar sep rest with _ | ⟨h0, t⟩
    · exact absurd h (splitChar_ne_nil sep rest)
    · dsimp only
      simp
  | cons c cs ih =>
    rw [List.cons_append]
    simp only [splitChar]
    rw [ih (fun d hd => hx d (List.mem_cons_of_mem c hd))]
    dsimp only
    rw [if_neg (hx c (by simp))]

/-- Rejoining then splitting is the identity when no chunk contains the
separator. -/
theorem splitChar_joinChar (sep : Char) (chunks : List Str)
    (hne : chunks ≠ [])
    (hfree : ∀ chunk ∈ chunks, ∀ c ∈ chunk, c ≠ sep) :
    splitChar sep (joinChar sep chunks) = chunks := by
  induction chunks with
  | nil => exact absurd rfl hne
  | cons x xs ih =>
    cases xs with
    | nil =>
      simp only [joinChar]
      exact splitChar_sepFree sep x (hfree x (by simp))
    | cons y ys =>
      have ihr : splitChar sep (joinChar sep (y :: ys)) = y :: ys :=
        ih (by simp) (fun chunk hchunk c hc =>
          hfree chunk (List.mem_cons_of_mem x hchunk) c hc)
      simp only [joinChar]
      rw [splitChar_append_sep sep x _ (hfree x (by simp)), ihr]

/-- `splitLines` on a head that is not a line terminator conses onto
the first chunk. -/
theorem splitLines_cons_other (c : Char) (cs : Str)
    (h1 : c ≠ '\r') (h2 : c ≠ '\n') :
    splitLines (c :: cs) = consHead c (splitLines cs) := by
  rw [splitLines.eq_def]
  split
  · simp_all
  · simp_all
  · simp_all
  · simp_all
  · simp_all

/-- Without carriage returns, `splitLines` is a plain split on `\n`. -/
theorem splitLines_eq_splitChar (l : Str) (h : ∀ c ∈ l, c ≠ '\r') :
    splitLines l = splitChar '\n' l := by
  induction l with
  | nil => rfl
  | cons c cs ih =>
    have hr : c ≠ '\r' := h c (by simp)
    have ihh : splitLines cs = splitChar '\n' cs :=
      ih (fun d hd => h d (List.mem_cons_of_mem c hd))
    by_cases hn : c = '\n'
    · subst hn
      simp only [splitLines, splitChar]
      rw [ihh]
      rcases hs : splitChar '\n' cs with _ | ⟨h0, t⟩
      · exact absurd hs (splitChar_ne_nil _ _)
      · dsimp only
        simp
    · rw [splitLines_cons_other c cs hr hn]
      simp only [splitChar]
      rw [ihh]
      rcases hs : splitChar '\n' cs with _ | ⟨h0, t⟩
      · exact absurd hs (splitChar_ne_nil _ _)
      · dsimp only
        rw [if_neg hn]
        simp [consHead]

/-- Membership in a joined string comes from the separator or from one
of the chunks. -/
theorem mem_joinChar (sep : Char) (chunks : List Str) (c : Char)
    (hc : c ∈ joinChar sep chunks) :
    c = sep ∨ ∃ chunk ∈ chunks, c ∈ chunk := by
  induction chunks with
  | nil => simp [joinChar] at hc
  | cons x xs ih =>
    cases xs with
    | nil =>
      simp only [joinChar] at hc
      exact Or.inr ⟨x, by simp, hc⟩
    | cons y ys =>
      simp only [joinChar] at hc
      rcases List.mem_append.mp hc with hm | hm
      · exact Or.inr ⟨x, by simp, hm⟩
      · rcases List.mem_cons.mp hm with hm | hm
        · exact Or.inl hm
        · rcases ih hm with hm | ⟨chunk, hmem, hcc⟩
          · exact Or.inl hm
          · exact Or.inr ⟨chunk, List.mem_cons_of_mem x hmem, hcc⟩

/-- Newline-joined terminator-free lines split back into the lines. -/
theorem splitLines_joinChar (lines : List Str) (hne : lines ≠ [])
    (hfree : ∀ l ∈ lines, ∀ c ∈ l, c ≠ '\r' ∧ c ≠ '\n') :
    splitLines (joinChar '\n' lines) = lines := by
  rw [splitLines_eq_splitChar]
  · exact splitChar_joinChar '\n' lines hne
      (fun l hl c hc => (hfree l hl c hc).2)
  · intro c hc
    rcases mem_joinChar '\n' lines c hc with h | ⟨chunk, hm, hcc⟩
    · rw [h]
      decide
    · exact (hfree chunk hm c hcc).1

/-- `jsTrim` is the identity on strings whose first and last characters
are not whitespace. -/
theorem jsTrim_eq_self (l : Str)
    (hhead : ∀ c, l.head? = some c → isJsWs c = false)
    (hlast : ∀ c, l.getLast? = some c → isJsWs c = false) :
    jsTrim l = l := by
  unfold jsTrim
  have h1 : l.dropWhile isJsWs = l := by
    cases l with
    | nil => rfl
    | cons c cs =>
      rw [List.dropWhile_cons, if_neg]
      rw [hhead c rfl]
      simp
  rw [h1]
  have h2 : l.reverse.dropWhile isJsWs = l.reverse := by
    cases hrev : l.reverse with
    | nil => rfl
    | cons c cs =>
      have hlc : l.getLast? = some c := by
        rw [← List.head?_reverse, hrev]
        rfl
      rw [List.dropWhile_cons, if_neg]
      rw [hlast c hlc]
      simp
  rw [h2, List.reverse_reverse]

/-- A well-formed non-header input segment: kind label and raw field
texts. -/
structure RawSeg where
  kind : Str
  fields : List Str

/-- A well-formed input message: its declared field separator, the
header's field texts (first one the encoding block), and the remaining
segments. -/
structure RawMsg where
  sep : Char
  headerFields : List Str
  rest : List RawSeg

/-- The header line of a well-formed input message:
`MSH` + separator + separator-joined header fields. -/
def headerLine (m : RawMsg) : Str :=
  'M' :: 'S' :: 'H' :: m.sep :: joinChar m.sep m.headerFields

/-- A non-header line: kind + separator + separator-joined fields. -/
def segLine (sep : Char) (sg : RawSeg) : Str :=
  sg.kind ++ sep :: joinChar sep sg.fields

/-- All lines of one input message, header first. -/
def msgLines (m : RawMsg) : List Str := headerLine m :: m.rest.map (segLine m.sep)

/-- The raw text of a message list: all lines joined with `\n`. -/
def rawText (ms : List RawMsg) : Str := joinChar '\n' (ms.flatMap msgLines)

/-- The terminator-normalized form of the same lines: `\r` between the
segments of a message, `\r\r\n` between messages. -/
def expectedExport (ms : List RawMsg) : Str :=
  joinStr (S "\r\r\n") (ms.map (fun m => joinChar '\r' (msgLines m)))

/-- A line that survives segmentation verbatim: free of line
terminators and not ending in whitespace. -/
abbrev lineWF (l : Str) : Prop :=
  (∀ c ∈ l, c ≠ '\r' ∧ c ≠ '\n') ∧ isJsWs (l.getLastD 'x') = false

/-- The last-character condition of `lineWF` in the form `jsTrim`
stability needs. -/
theorem lineWF_getLast (l : Str) (h : isJsWs (l.getLastD 'x') = false) :
    ∀ c, l.getLast? = some c → isJsWs c = false := by
  intro c hc
  rw [List.getLastD_eq_getLast?, hc] at h
  exact h

/-- Well-formedness of a non-header input segment under a separator. -/
abbrev rawSegWF (sep : Char) (sg : RawSeg) : Prop :=
  sg.kind ∈ HL7SegmentIds ∧ sg.kind ≠ S "MSH" ∧ lineWF (segLine sep sg)

/-- Well-formedness of one input message. -/
abbrev rawMsgWF (m : RawMsg) : Prop :=
  isJsWs m.sep = false ∧ lineWF (headerLine m) ∧ ∀ sg ∈ m.rest, rawSegWF m.sep sg

/-- Every known segment kind is a 3-character label starting with a
non-whitespace character. -/
theorem hl7Ids_facts : ∀ k ∈ HL7SegmentIds, k.length = 3 ∧
    isJsWs (k.getD 0 ' ') = false ∧ isLineTerm (k.getD 0 ' ') = false := by decide

/-- The projection of a parsed segment the export and the round trip
depend on: kind, fields, field separator. -/
def segCore (s : Segment) : Str × List Str × Char :=
  (s.segmentId, s.fields, s.fieldSeparator)

/-- The component separator resolved from a header line. -/
def hdrCS (m : RawMsg) (st : SegState) : Char :=
  if (headerLine m).length > 7 then (headerLine m).getD 4 st.cs else st.cs

/-- The subcomponent separator resolved from a header line. -/
def hdrSS (m : RawMsg) (st : SegState) : Char :=
  if (headerLine m).length > 7 then (headerLine m).getD 7 st.ss else st.ss

/-- Processing a well-formed header line closes the open message and
opens a new one holding exactly the parsed `MSH` segment, with the
line's declared field separator. -/
theorem segStep_header (st : SegState) (m : RawMsg) (hwf : rawMsgWF m) :
    segStep st (headerLine m) =
      { messages := st.messages ++ (match st.current with
          | some x => [x]
          | none => []),
        current := some
          { fieldSeparator := m.sep, componentSeparator := hdrCS m st,
            subcomponentSeparator := hdrSS m st,
            segments := [{ segmentId := S "MSH",
                           fields := splitChar m.sep (joinChar m.sep m.headerFields),
                           fieldSeparator := m.sep,
                           componentSeparator := hdrCS m st,
                           subcomponentSeparator := hdrSS m st }] },
        fs := m.sep, cs := hdrCS m st, ss := hdrSS m st } := by
  obtain ⟨hsep, ⟨hterm, hlast⟩, hrest⟩ := hwf
  have htrim : jsTrim (headerLine m) = headerLine m := by
    apply jsTrim_eq_self
    · intro c hc
      simp only [headerLine, List.head?_cons, Option.some.injEq] at hc
      rw [← hc]
      decide
    · exact lineWF_getLast _ hlast
  simp only [segStep, htrim]
  rw [if_neg (by simp [headerLine])]
  have htake : (headerLine m).take 3 = S "MSH" := by
    simp [headerLine, List.take, S]
  rw [htake]
  rw [if_pos rfl]
  have hlen3 : (headerLine m).length > 3 := by
    simp [headerLine]
  have hgetD3 : (headerLine m).getD 3 st.fs = m.sep := by
    simp [headerLine, List.getD]
  have hdrop4 : (headerLine m).drop 4 = joinChar m.sep m.headerFields := by
    simp [headerLine]
  rw [if_pos hlen3, hgetD3]
  have hany : HL7SegmentIds.any (fun k => k = S "MSH") = true := by decide
  simp only [hany, if_true, hdrop4, hdrCS, hdrSS]
  cases st.current <;> simp

/-- Processing a well-formed non-header line appends its parsed segment
to the open message and leaves everything else unchanged. -/
theorem segStep_seg (st : SegState) (cur : Message) (sep : Char) (sg : RawSeg)
    (hcur : st.current = some cur) (hfs : st.fs = sep)
    (hsep : isJsWs sep = false) (hwf : rawSegWF sep sg) :
    segStep st (segLine sep sg) =
      { st with current := some { cur with segments := cur.segments ++
          [{ segmentId := sg.kind, fields := splitChar sep (joinChar sep sg.fields),
             fieldSeparator := sep, componentSeparator := st.cs,
             subcomponentSeparator := st.ss }] } } := by
  obtain ⟨hmem, hnmsh, ⟨hterm, hlast⟩⟩ := hwf
  obtain ⟨hklen, hkhead, -⟩ := hl7Ids_facts sg.kind hmem
  have hkne : sg.kind ≠ [] := by
    intro hk
    rw [hk] at hklen
    simp at hklen
  have htrim : jsTrim (segLine sep sg) = segLine sep sg := by
    apply jsTrim_eq_self
    · intro c hc
      rcases hk : sg.kind with _ | ⟨k0, ks⟩
      · exact absurd hk hkne
      · simp only [segLine, hk, List.cons_append, List.head?_cons,
          Option.some.injEq] at hc
        rw [← hc]
        have := hkhead
        rw [hk] at this
        simpa using this
    · exact lineWF_getLast _ hlast
  have hlinene : segLine sep sg ≠ [] := by
    rcases hk : sg.kind with _ | ⟨k0, ks⟩
    · exact absurd hk hkne
    · simp [segLine, hk]
  have htake : (segLine sep sg).take 3 = sg.kind := by
    have : segLine sep sg = sg.kind ++ (sep :: joinChar sep sg.fields) := rfl
    rw [this, ← hklen, List.take_left]
  have hdrop : (segLine sep sg).drop 3 = sep :: joinChar sep sg.fields := by
    have : segLine sep sg = sg.kind ++ (sep :: joinChar sep sg.fields) := rfl
    rw [this, ← hklen, List.drop_left]
  simp only [segStep, htrim]
  rw [if_neg (by simpa using hlinene)]
  rw [htake]
  rw [if_neg hnmsh]
  rw [hcur]
  have hany : HL7SegmentIds.any (fun k => k = sg.kind) = true := by
    rw [List.any_eq_true]
    exact ⟨sg.kind, hmem, by simp⟩
  simp only [hany, if_true]
  rw [if_neg hnmsh, hdrop, hfs]
  have hstart : strStarts [sep] (sep :: joinChar sep sg.fields) = true := by
    simp [strStarts, List.isPrefixOf]
  simp only [hstart, if_true, List.drop_one, List.tail_cons]

/-- Folding a run of well-formed non-header lines appends their parsed
segments, in order, to the open message. -/
theorem foldl_segLines (sep : Char) (hsep : isJsWs sep = false) :
    ∀ (rest : List RawSeg), (∀ sg ∈ rest, rawSegWF sep sg) →
    ∀ (st : SegState) (cur : Message),
      st.current = some cur → st.fs = sep →
      (rest.map (segLine sep)).foldl segStep st =
        { st with current := some { cur with segments := (cur.segments ++
            rest.map (fun sg =>
              ({ segmentId := sg.kind,
                 fields := splitChar sep (joinChar sep sg.fields),
                 fieldSeparator := sep, componentSeparator := st.cs,
                 subcomponentSeparator := st.ss } : Segment))) } } := by
  intro rest
  induction rest with
  | nil =>
    intro _ st cur hcur hfs
    rcases st with ⟨msgs, curr, fs, cs, ss⟩
    simp only at hcur
    simp [hcur]
  | cons sg rest ih =>
    intro hwf st cur hcur hfs
    simp only [List.map_cons, List.foldl_cons]
    rw [segStep_seg st cur sep sg hcur hfs hsep (hwf sg (by simp))]
    rw [ih (fun s hs => hwf s (List.mem_cons_of_mem sg hs)) _ _ rfl (by simp [hfs])]
    simp [List.append_assoc]

/-- The parsed `MSH` segment of a message, given the incoming state. -/
def mshSegOf (m : RawMsg) (st : SegState) : Segment :=
  { segmentId := S "MSH", fields := splitChar m.sep (joinChar m.sep m.headerFields),
    fieldSeparator := m.sep, componentSeparator := hdrCS m st,
    subcomponentSeparator := hdrSS m st }

/-- The parsed form of one whole input message, given the incoming
state. -/
def parsedMsg (m : RawMsg) (st : SegState) : Message :=
  { fieldSeparator := m.sep, componentSeparator := hdrCS m st,
    subcomponentSeparator := hdrSS m st,
    segments := mshSegOf m st :: m.rest.map (fun sg =>
      { segmentId := sg.kind, fields := splitChar m.sep (joinChar m.sep sg.fields),
        fieldSeparator := m.sep, componentSeparator := hdrCS m st,
        subcomponentSeparator := hdrSS m st }) }

/-- Folding all lines of one well-formed message closes the open
message and leaves the parsed message open. -/
theorem foldl_msgLines (m : RawMsg) (hwf : rawMsgWF m) (st : SegState) :
    (msgLines m).foldl segStep st =
      { messages := st.messages ++ (match st.current with
          | some x => [x]
          | none => []),
        current := some (parsedMsg m st),
        fs := m.sep, cs := hdrCS m st, ss := hdrSS m st } := by
  simp only [msgLines, List.foldl_cons]
  rw [segStep_header st m hwf]
  rw [foldl_segLines m.sep hwf.1 m.rest hwf.2.2 _ _ rfl rfl]
  simp [parsedMsg, mshSegOf]

/-- Close the loop state: collected messages plus the open one. -/
def flushCur (st : SegState) : List Message :=
  st.messages ++ (match st.current with
    | some x => [x]
    | none => [])

/-- `parseMessagesForFiltering` is the flushed line fold. -/
theorem parseMessagesForFiltering_eq (content : Str) :
    parseMessagesForFiltering content =
      flushCur ((splitLines content).foldl segStep
        { messages := [], current := none, fs := '|', cs := '^', ss := '&' }) := rfl

/-- The kind/fields/separator cores a well-formed input message must
parse to. -/
def expectedCores (m : RawMsg) : List (Str × List Str × Char) :=
  (S "MSH", splitChar m.sep (joinChar m.sep m.headerFields), m.sep) ::
    m.rest.map (fun sg => (sg.kind, splitChar m.sep (joinChar m.sep sg.fields), m.sep))

/-- Folding the lines of a well-formed message list appends, per input
message, one parsed message with the expected cores. -/
theorem foldl_allMsgLines :
    ∀ (ms : List RawMsg), (∀ m ∈ ms, rawMsgWF m) → ∀ (st : SegState),
      ∃ tail : List Message,
        flushCur ((ms.flatMap msgLines).foldl segStep st) = flushCur st ++ tail ∧
        List.Forall₂ (fun pm m => pm.fieldSeparator = m.sep ∧
          pm.segments.map segCore = expectedCores m) tail ms := by
  intro ms
  induction ms with
  | nil =>
    intro _ st
    exact ⟨[], by simp, List.Forall₂.nil⟩
  | cons m rest ih =>
    intro hwf st
    rw [List.flatMap_cons, List.foldl_append]
    rw [foldl_msgLines m (hwf m (by simp)) st]
    obtain ⟨tail, heq, hfa⟩ := ih (fun x hx => hwf x (List.mem_cons_of_mem m hx)) _
    refine ⟨parsedMsg m st :: tail, ?_, ?_⟩
    · rw [heq]
      simp only [flushCur]
      simp [List.append_assoc]
    · refine List.Forall₂.cons ⟨rfl, ?_⟩ hfa
      simp [parsedMsg, mshSegOf, segCore, expectedCores, List.map_map, Function.comp_def]

/-- Lines of a well-formed input message are free of line terminators. -/
theorem msgLines_termFree (m : RawMsg) (hwf : rawMsgWF m) :
    ∀ l ∈ msgLines m, ∀ c ∈ l, c ≠ '\r' ∧ c ≠ '\n' := by
  intro l hl
  rcases List.mem_cons.mp hl with h | h
  · subst h
    exact hwf.2.1.1
  · rcases List.mem_map.mp h with ⟨sg, hsg, hline⟩
    rw [← hline]
    exact ((hwf.2.2 sg hsg).2.2).1

/-- Splitting the raw text of a nonempty well-formed message list
recovers exactly its lines. -/
theorem splitLines_rawText (ms : List RawMsg) (hne : ms ≠ [])
    (hwf : ∀ m ∈ ms, rawMsgWF m) :
    splitLines (rawText ms) = ms.flatMap msgLines := by
  apply splitLines_joinChar
  · rcases ms with _ | ⟨m, rest⟩
    · exact absurd rfl hne
    · simp [msgLines]
  · intro l hl
    rcases List.mem_flatMap.mp hl with ⟨m, hm, hlm⟩
    exact msgLines_termFree m (hwf m hm) l hlm

/-- A left member of a `Forall₂` has a related right member. -/
theorem forall₂_mem_left {α β : Type} {R : α → β → Prop} :
    ∀ {l₁ : List α} {l₂ : List β}, List.Forall₂ R l₁ l₂ →
      ∀ a ∈ l₁, ∃ b ∈ l₂, R a b := by
  intro l₁ l₂ h
  induction h with
  | nil => intro a ha; simp at ha
  | cons hr _ ih =>
    intro a ha
    rcases List.mem_cons.mp ha with h | h
    · subst h
      exact ⟨_, by simp, hr⟩
    · rcases ih a h with ⟨b, hb, hrb⟩
      exact ⟨b, List.mem_cons_of_mem _ hb, hrb⟩

/-- Rebuild a line from a segment core. -/
def coreLine : Str × List Str × Char → Str
  | (k, fs, sep) => k ++ sep :: joinChar sep fs

/-- `segToLine` only depends on the segment core. -/
theorem segToLine_eq_coreLine (s : Segment) : segToLine s = coreLine (segCore s) := by
  simp [segToLine, coreLine, segCore]

/-- The expected cores of a well-formed message rebuild its lines. -/
theorem cores_rebuild_lines (m : RawMsg) :
    (expectedCores m).map coreLine = msgLines m := by
  simp only [expectedCores, msgLines, List.map_cons, List.map_map]
  congr 1
  · simp only [coreLine, joinChar_splitChar, headerLine]
    rfl
  · apply List.map_congr_left
    intro sg _
    simp only [Function.comp_def, coreLine, joinChar_splitChar, segLine]

/-- Parsed messages with the expected cores export to the
terminator-normalized original lines. -/
theorem exportContent_of_cores (pms : List Message) (ms : List RawMsg)
    (hfa : List.Forall₂ (fun pm m => pm.fieldSeparator = m.sep ∧
      pm.segments.map segCore = expectedCores m) pms ms) :
    exportContent pms = expectedExport ms := by
  have hmap : pms.map (fun pm => joinChar '\r' (pm.segments.map segToLine)) =
      ms.map (fun m => joinChar '\r' (msgLines m)) := by
    induction hfa with
    | nil => rfl
    | cons hr hrest ih =>
      rename_i pm m l1 l2
      simp only [List.map_cons, ih, List.cons.injEq, and_true]
      congr 1
      have h2 : pm.segments.map segToLine = (pm.segments.map segCore).map coreLine := by
        rw [List.map_map]
        apply List.map_congr_left
        intro s _
        exact segToLine_eq_coreLine s
      rw [h2, hr.2, cores_rebuild_lines]
  simp only [exportContent, expectedExport, hmap]

/-- The tautological FilterSet used to materialize an export: a single
condition `MSH.1 exists`, which holds for every message whose first
segment is the header (its value is the field-separator character). -/
def allPassCfg : FiltersConfig :=
  { filters := [{ label := S "F1", expression := S "MSH.1 exists" }],
    logic := S "single", expression := [] }

/-- A message headed by an `MSH` segment with a non-whitespace field
separator passes the tautological filter. -/
theorem allPass_matches (segs : List Segment) (sep : Char)
    (hsep : isJsWs sep = false)
    (s0 : Segment) (srest : List Segment)
    (hseg : segs = s0 :: srest)
    (hid : s0.segmentId = S "MSH") (hfs : s0.fieldSeparator = sep)
    (cs ss : Char) :
    messageMatchesFilters segs (some allPassCfg) cs ss = true := by
  have hpf : parseFilterExpression (S "MSH.1 exists") =
      some { fieldRef := S "MSH.1", operator := S "exists", value := [] } := by decide
  have hpr : parseFieldReference (S "MSH.1") =
      some { segment := S "MSH", field := 1 } := by decide
  have hsingle : messageMatchesSingleFilter segs
      { fieldRef := S "MSH.1", operator := S "exists", value := [] } cs ss = true := by
    simp only [messageMatchesSingleFilter, hpr]
    have hfind : segs.find? (fun s => decide (s.segmentId = S "MSH")) = some s0 := by
      rw [hseg]
      rw [List.find?_cons_of_pos]
      simp [hid]
    rw [hfind]
    have hval : extractValueFromSegment s0 1 none none cs ss = [s0.fieldSeparator] := by
      simp only [extractValueFromSegment, hid]
      simp
    dsimp only
    rw [hval, hfs]
    have htrim : jsTrim [sep] = [sep] := by
      apply jsTrim_eq_self
      · intro c hc
        simp only [List.head?_cons, Option.some.injEq] at hc
        rw [← hc]
        exact hsep
      · intro c hc
        simp only [List.getLast?_singleton, Option.some.injEq] at hc
        rw [← hc]
        exact hsep
    rw [htrim]
    norm_num [toUpperStr]
    rw [if_neg (by decide : ¬ (S "exists" = S "="))]
    rw [if_neg (by decide : ¬ (S "exists" = S "!="))]
    rw [if_neg (by decide : ¬ (S "exists" = S "contains"))]
    exact Or.inl (by decide)
  simp only [messageMatchesFilters]
  rw [if_neg (by decide : ¬ (allPassCfg.filters = []))]
  rw [if_pos (Or.inl (by decide : allPassCfg.logic = S "single"))]
  simp only [allPassCfg, buildFilterResults, List.foldl_cons, List.foldl_nil]
  simp only [evalCondition, hpf]
  rw [hsingle]
  simp [objUpsert, lookupD]

/-- C9 counterexample: with no filter supplied, `extractFieldValues`
produces an empty export text even though the content parses to a
message, so re-exporting "with no filter applied" does not reproduce
the original content; moreover, even under an all-matching filter, a
line with the unrecognized kind `ZZZ` is dropped, so the export is not
the terminator-normalized original either. -/
theorem c9_roundtrip_counterexample :
    exportOf (extractFieldValues (S "MSH|^~\\&|A\rPID|1") (S "") none) = S "" ∧
    (parseMessagesForFiltering (S "MSH|^~\\&|A\rPID|1")).length = 1 ∧
    S "" ≠ S "MSH|^~\\&|A\rPID|1" ∧
    exportOf (extractFieldValues (S "MSH|^~\\&|A\rZZZ|1\rPID|1") (S "")
      (some allPassCfg)) = S "MSH|^~\\&|A\rPID|1" := by decide

/-- C9 (amended): with no FilterSet the export text is empty; and for
raw text built from well-formed recognized segment lines (each message
opened by an `MSH` line declaring a non-whitespace separator, every
line free of embedded terminators and not ending in whitespace),
segmenting and re-exporting under a filter matching every message
reproduces exactly the original lines with the terminators normalized
to `\r` within a message and `\r\r\n` between messages. -/
theorem c9_roundtrip_amended_normalization :
    (∀ content fieldRef : Str,
      exportOf (extractFieldValues content fieldRef none) = []) ∧
    (∀ ms : List RawMsg, (∀ m ∈ ms, rawMsgWF m) →
      exportOf (extractFieldValues (rawText ms) (S "") (some allPassCfg)) =
        expectedExport ms) := by
  constructor
  · intro content fieldRef
    simp only [extractFieldValues]
    by_cases h : (¬ jsTrim fieldRef = []) ∧
        (if jsTrim fieldRef = [] then none else parseFieldReference fieldRef) = none
    · rw [if_pos h]
      rfl
    · rw [if_neg h]
      simp [extractAssemble, exportOf]
  · intro ms hwf
    by_cases hms : ms = []
    · subst hms
      decide
    · have hsl := splitLines_rawText ms hms hwf
      obtain ⟨tail, heq, hfa⟩ := foldl_allMsgLines ms hwf
        { messages := [], current := none, fs := '|', cs := '^', ss := '&' }
      have hparse : parseMessagesForFiltering (rawText ms) = tail := by
        rw [parseMessagesForFiltering_eq, hsl, heq]
        simp [flushCur]
      have hfilter : tail.filter (fun msg => messageMatchesFilters msg.segments
          (some allPassCfg) msg.componentSeparator msg.subcomponentSeparator) = tail := by
        rw [List.filter_eq_self]
        intro pm hpm
        obtain ⟨m, hm, hsep', hcores⟩ := forall₂_mem_left hfa pm hpm
        rcases hseg : pm.segments with _ | ⟨s0, srest⟩
        · rw [hseg] at hcores
          simp [expectedCores] at hcores
        · rw [hseg] at hcores
          simp only [List.map_cons, expectedCores, List.cons.injEq, segCore,
            Prod.mk.injEq] at hcores
          obtain ⟨⟨hid, hfields, hfsep⟩, hrest'⟩ := hcores
          exact allPass_matches (s0 :: srest) m.sep (hwf m hm).1 s0 srest rfl hid hfsep _ _
      rw [exportOf_with_valid_filters (rawText ms) (S "") allPassCfg (by decide) (by decide)
        (fun hc => absurd hc (by decide)) (Or.inl (by decide))]
      rw [hparse, hfilter]
      rw [← exportContent_of_cores tail ms hfa]
      unfold exportContent segToLine
      rfl

/-- A two-message well-formed input used by the C9 witness. -/
def c9ExampleMsgs : List RawMsg :=
  [{ sep := '|', headerFields := [S "^~\\&", S "A"],
     rest := [{ kind := S "PID", fields := [S "1", S "DOE"] }] },
   { sep := '|', headerFields := [S "^~\\&", S "B"], rest := [] }]

/-- Witness for C9's amended round trip on a concrete two-message
input: the well-formedness hypotheses hold and the export equals the
normalized original lines. -/
theorem c9_roundtrip_witness :
    (∀ m ∈ c9ExampleMsgs, rawMsgWF m) ∧
    exportOf (extractFieldValues (rawText c9ExampleMsgs) (S "") (some allPassCfg)) =
      expectedExport c9ExampleMsgs :=
  ⟨by decide, c9_roundtrip_amended_normalization.2 c9ExampleMsgs (by decide)⟩
